import Mathlib

set_option maxRecDepth 3000

/-!
Verification development for the MDG-UBO-Tool repository (UBO discovery over
the Czech ARES VR registry).  The Python sources are shallowly embedded:

* `parse_pct_from_text`, `parse_effective_from_text`
    — src/ownership_resolve_online.py (the identical copies in src/app.py);
* `parse_pct_from_text100` — `_parse_pct_from_text` in src/ares_vr_extract.py;
* `extract_current_owners` and its helpers — src/ares_vr_extract.py;
* `resolve_tree_online` / `walk` — src/ownership_resolve_online.py;
* `get_vr` / `norm_ico` and the cache — src/ares_vr_client.py;
* `compute_effective_persons` and the voting-block evaluation — src/app.py.

Modelling conventions: Python floats are modelled as exact rationals (ℚ);
the numeric claims carry tolerances (1e-9) far above double rounding error,
so exact arithmetic is the intended ideal semantics.  Python's `re` patterns
are embedded as hand-written scanners reproducing each concrete pattern's
leftmost, non-overlapping `finditer`/`sub`/`search` semantics, including
greediness and the backtracking points these specific patterns can reach.
`float()` is modelled on the numeric literal forms (sign, digits, decimal
point, exponent); the `inf`/`nan`/underscore literal forms never occur in
the scanned material and are not modelled.
-/

/-- Python `\s` (whitespace class) restricted to the ASCII range; the
whitespace appearing in the scanned registry texts is ASCII. -/
def isWs (c : Char) : Bool :=
  c = ' ' || c = '\t' || c = '\n' || c = '\r' || c = '\x0b' || c = '\x0c'

/-- ASCII decimal digit, the `\d` class on the scanned material. -/
def isDig (c : Char) : Bool := '0' ≤ c && c ≤ '9'

/-- Case folding used for the `re.IGNORECASE` patterns: ASCII letters plus
the one non-ASCII letter occurring in the source patterns (`ě` in
`efektivně`). -/
def lcChar (c : Char) : Char :=
  if 'A' ≤ c && c ≤ 'Z' then Char.ofNat (c.toNat + 32)
  else if c = 'Ě' then 'ě'
  else c

/-- Maximal run of digits: `\d+` (greedy); returns (run, rest). -/
def digitsRun : List Char → List Char × List Char
  | [] => ([], [])
  | c :: r =>
    if isDig c then
      let (d, r2) := digitsRun r
      (c :: d, r2)
    else ([], c :: r)

/-- `\s*` (greedy). -/
def skipWs : List Char → List Char
  | [] => []
  | c :: r => if isWs c then skipWs r else c :: r

/-- Case-insensitive literal match; returns the remainder on success. -/
def litCI : List Char → List Char → Option (List Char)
  | [], s => some s
  | _ :: _, [] => none
  | p :: ps, c :: cs => if lcChar c = lcChar p then litCI ps cs else none

/-- `s.strip()` on a string (Python strips whitespace from both ends). -/
def stripChars (s : List Char) : List Char :=
  ((skipWs s.reverse).reverse |> skipWs)

def stripStr (s : String) : String := String.mk (stripChars s.toList)

/-- Digit list (most significant first) to a natural number. -/
def digitsVal : List Char → Nat
  | [] => 0
  | c :: r => (c.toNat - '0'.toNat) * 10 ^ r.length + digitsVal r

/-- Exponent part `e|E [+-] digits`; returns (exponent, rest) or fails. -/
def expSfx : List Char → Option (Int × List Char)
  | c :: r =>
    if c = 'e' || c = 'E' then
      let (sg, r2) : Int × List Char :=
        match r with
        | '-' :: t => (-1, t)
        | '+' :: t => (1, t)
        | t => (1, t)
      let (d, r3) := digitsRun r2
      if d = [] then none else some (sg * (digitsVal d : Int), r3)
    else none
  | [] => none

/-- Core of `float()`: parse from a char list, requiring full consumption. -/
def pyFloatCore (cs : List Char) : Option ℚ :=
  let (sgn, cs1) : ℚ × List Char :=
    match cs with
    | '-' :: r => (-1, r)
    | '+' :: r => (1, r)
    | r => (1, r)
  let (d1, cs2) := digitsRun cs1
  match cs2 with
  | '.' :: r =>
    let (d2, cs3) := digitsRun r
    if d1 = [] && d2 = [] then none
    else
      let mant : ℚ := (digitsVal d1 : ℚ) + (digitsVal d2 : ℚ) / (10 ^ d2.length : ℚ)
      match cs3 with
      | [] => some (sgn * mant)
      | _ =>
        match expSfx cs3 with
        | some (e, []) => some (sgn * mant * (10 : ℚ) ^ e)
        | _ => none
  | _ =>
    if d1 = [] then none
    else
      let mant : ℚ := (digitsVal d1 : ℚ)
      match cs2 with
      | [] => some (sgn * mant)
      | _ =>
        match expSfx cs2 with
        | some (e, []) => some (sgn * mant * (10 : ℚ) ^ e)
        | _ => none

/-- Python `float(s)` after `.strip()`-like whitespace handling. -/
def pyFloat (s : String) : Option ℚ := pyFloatCore (stripChars s.toList)

/-- `_to_float` (identical in all three source files):
`float(s.replace(",", ".").replace(";", "."))`, `None` on failure. -/
def to_float (s : String) : Option ℚ :=
  pyFloat (String.mk (s.toList.map fun c => if c = ',' || c = ';' then '.' else c))

/-!
### Scanners for the compiled patterns of the share parsers

Each `match…` function implements one compiled pattern's attempt at the head
of the input: on success it returns the captured data and the remainder of
the input after the whole match.  All patterns begin with a mandatory
character, so a successful match always consumes at least one character.
-/

/-- Tail `\s*%`. -/
def tailPct (s : List Char) : Option (List Char) :=
  match skipWs s with
  | '%' :: r => some r
  | _ => none

/-- Tail `\s*PROCENTA` (case-insensitive). -/
def tailProcenta (s : List Char) : Option (List Char) :=
  litCI "procenta".toList (skipWs s)

/-- Tail `\s*(?:%|PROCENTA)`: alternation tries `%` first. -/
def tailPctOrProcenta (s : List Char) : Option (List Char) :=
  match skipWs s with
  | '%' :: r => some r
  | r => litCI "procenta".toList r

/-- Group `(\d+(?:[.,;]\d+)?)` followed by the tail `k`.  Mirrors the regex
backtracking: the greedy optional decimal part is tried first and dropped if
the tail then fails.  (The tails used here never start with a digit, so the
leading `\d+` itself never needs to backtrack.)  Returns the captured group
text and the remainder after the tail. -/
def numGroupThen (k : List Char → Option (List Char)) (s : List Char) :
    Option (String × List Char) :=
  let (d, r1) := digitsRun s
  if d = [] then none
  else
    match r1 with
    | c :: r2 =>
      if c = '.' || c = ',' || c = ';' then
        let (d2, r3) := digitsRun r2
        if d2 = [] then (k r1).map fun rest => (String.mk d, rest)
        else
          match k r3 with
          | some rest => some (String.mk (d ++ c :: d2), rest)
          | none => (k r1).map fun rest => (String.mk d, rest)
      else (k r1).map fun rest => (String.mk d, rest)
    | [] => (k []).map fun rest => (String.mk d, rest)

/-- `PCT_RE = (\d+(?:[.,;]\d+)?)\s*%`. -/
def matchPct (s : List Char) : Option (String × List Char) :=
  numGroupThen tailPct s

/-- `PROCENTA_RE = (\d+(?:[.,;]\d+)?)\s*PROCENTA` (ci). -/
def matchProcenta (s : List Char) : Option (String × List Char) :=
  numGroupThen tailProcenta s

/-- `FRAC_SLASH_RE = (\d+)\s*/\s*(\d+)`. -/
def matchFracSlash (s : List Char) : Option ((String × String) × List Char) :=
  let (a, r1) := digitsRun s
  if a = [] then none
  else
    match skipWs r1 with
    | '/' :: r2 =>
      let (b, r3) := digitsRun (skipWs r2)
      if b = [] then none else some ((String.mk a, String.mk b), r3)
    | _ => none

/-- `FRAC_SEMI_RE = (\d+)\s*;\s*(\d+)\s*(ZLOMEK|TEXT)?` (ci).  The trailing
`\s*` and the optional third group are part of the match (they only move the
scan position; whitespace never overlaps a later numeric token). -/
def matchFracSemi (s : List Char) : Option ((String × String) × List Char) :=
  let (a, r1) := digitsRun s
  if a = [] then none
  else
    match skipWs r1 with
    | ';' :: r2 =>
      let (b, r3) := digitsRun (skipWs r2)
      if b = [] then none
      else
        let r4 := skipWs r3
        let r5 :=
          match litCI "zlomek".toList r4 with
          | some r => r
          | none =>
            match litCI "text".toList r4 with
            | some r => r
            | none => r4
        some ((String.mk a, String.mk b), r5)
    | _ => none

/-- Head `obchodni[_ ]?podil\s*:\s*` (ci): literal, one optional `_`/space
(greedy, with fallback to not consuming it), literal, colon with optional
whitespace. -/
def obchodniHead (s : List Char) : Option (List Char) :=
  (litCI "obchodni".toList s).bind fun r1 =>
    let afterPodil : Option (List Char) :=
      match r1 with
      | c :: r =>
        if c = '_' || c = ' ' then
          match litCI "podil".toList r with
          | some r2 => some r2
          | none => litCI "podil".toList r1
        else litCI "podil".toList r1
      | [] => none
    afterPodil.bind fun r2 =>
      match skipWs r2 with
      | ':' :: r3 => some (skipWs r3)
      | _ => none

/-- `OBCHODNI_PODIL_FRAC_RE = obchodni[_ ]?podil\s*:\s*(\d+)\s*[/;]\s*(\d+)` (ci). -/
def matchObchodniFrac (s : List Char) : Option ((String × String) × List Char) :=
  (obchodniHead s).bind fun r1 =>
    let (a, r2) := digitsRun r1
    if a = [] then none
    else
      match skipWs r2 with
      | c :: r3 =>
        if c = '/' || c = ';' then
          let (b, r4) := digitsRun (skipWs r3)
          if b = [] then none else some ((String.mk a, String.mk b), r4)
        else none
      | [] => none

/-- `OBCHODNI_PODIL_PCT_RE = obchodni[_ ]?podil\s*:\s*(\d+(?:[.,;]\d+)?)\s*(?:%|PROCENTA)` (ci). -/
def matchObchodniPct (s : List Char) : Option (String × List Char) :=
  (obchodniHead s).bind fun r1 => numGroupThen tailPctOrProcenta r1

/-- Head `hlasovaci[_ ]?prava\s*:\s*` (ci). -/
def hlasovaciHead (s : List Char) : Option (List Char) :=
  (litCI "hlasovaci".toList s).bind fun r1 =>
    let afterPrava : Option (List Char) :=
      match r1 with
      | c :: r =>
        if c = '_' || c = ' ' then
          match litCI "prava".toList r with
          | some r2 => some r2
          | none => litCI "prava".toList r1
        else litCI "prava".toList r1
      | [] => none
    afterPrava.bind fun r2 =>
      match skipWs r2 with
      | ':' :: r3 => some (skipWs r3)
      | _ => none

/-- `HLASOVACI_PRAVA_PCT_RE = hlasovaci[_ ]?prava\s*:\s*(\d+(?:[.,;]\d+)?)\s*(?:%|PROCENTA)` (ci). -/
def matchHlasovaciPct (s : List Char) : Option (String × List Char) :=
  (hlasovaciHead s).bind fun r1 => numGroupThen tailPctOrProcenta r1

/-- `SPLACENO_FIELD_RE = splaceno\s*:\s*\d+(?:[.,;]\d+)?\s*PROCENTA` (ci),
used with `.sub("", …)`. -/
def matchSplaceno (s : List Char) : Option (Unit × List Char) :=
  (litCI "splaceno".toList s).bind fun r1 =>
    match skipWs r1 with
    | ':' :: r2 =>
      (numGroupThen tailProcenta (skipWs r2)).map fun (_, rest) => ((), rest)
    | _ => none

/-- `EFEKTIVNE_RE = efektivně\s+(\d+(?:[.,;]\d+)?)\s*%` (ci). -/
def matchEfektivne (s : List Char) : Option (String × List Char) :=
  (litCI "efektivně".toList s).bind fun r1 =>
    match r1 with
    | c :: r2 =>
      if isWs c then numGroupThen tailPct (skipWs r2) else none
    | [] => none

/-- `finditer` driver: scan left to right, at each position try the matcher;
on success record the captures and resume after the match, else advance one
character.  `fuel` bounds the recursion; every step either consumes the
leading character or a successful match consumes at least one character, so
`fuel = s.length` always suffices. -/
def findAllAux (m : List Char → Option (α × List Char)) :
    Nat → List Char → List α
  | 0, _ => []
  | _, [] => []
  | fuel + 1, c :: rest =>
    match m (c :: rest) with
    | some (a, r) => a :: findAllAux m fuel r
    | none => findAllAux m fuel rest

def findAll (m : List Char → Option (α × List Char)) (s : List Char) : List α :=
  findAllAux m s.length s

/-- `re.sub(pattern, "", s)` driver: like `findAll` but rebuilding the
string with each match removed. -/
def subAllAux (m : List Char → Option (Unit × List Char)) :
    Nat → List Char → List Char
  | 0, s => s
  | _, [] => []
  | fuel + 1, c :: rest =>
    match m (c :: rest) with
    | some (_, r) => subAllAux m fuel r
    | none => c :: subAllAux m fuel rest

def subAll (m : List Char → Option (Unit × List Char)) (s : List Char) : List Char :=
  subAllAux m s.length s

/-- `re.search` driver: first match, scanning left to right. -/
def searchFirstAux (m : List Char → Option (α × List Char)) :
    Nat → List Char → Option α
  | 0, _ => none
  | _, [] => none
  | fuel + 1, c :: rest =>
    match m (c :: rest) with
    | some (a, _) => some a
    | none => searchFirstAux m fuel rest

def searchFirst (m : List Char → Option (α × List Char)) (s : List Char) : Option α :=
  searchFirstAux m s.length s

/-!
### Share-text parsers
-/

/-- Sum of a list of rationals (running `total += …`). -/
def sumQ (l : List ℚ) : ℚ := l.foldl (· + ·) 0

/-- `max(0.0, min(1.0, x))`. -/
def clamp01 (x : ℚ) : ℚ := max 0 (min 1 x)

/-- `max(0.0, min(100.0, x))`. -/
def clamp100 (x : ℚ) : ℚ := max 0 (min 100 x)

/-- Fraction contributions `a/b` for matched pairs: the term contributes iff
`b` is nonzero (`if a is not None and b and b != 0`; `a`, `b` are captured
digit groups, so `_to_float` always succeeds on them). -/
def fracTerms (l : List (String × String)) : List ℚ :=
  l.filterMap fun (a, b) =>
    match to_float a, to_float b with
    | some qa, some qb => if qb ≠ 0 then some (qa / qb) else none
    | _, _ => none

/-- Percent-group contributions: `_to_float` of each captured group. -/
def pctTerms (l : List String) : List ℚ := l.filterMap to_float

/-- `parse_pct_from_text` from src/ownership_resolve_online.py (the literal
copy in src/app.py is the same function): turns a registry text into a share
fraction in [0,1].  Four layers, first layer with any contribution wins:
1. all `obchodni_podil` fractions and percents (after stripping
   `splaceno:… PROCENTA`), 2. all `hlasovaci_prava` percents, 3. all generic
fractions `a/b`, `a;b`, 4. all generic percents `x%`, `x PROCENTA`. -/
def parse_pct_from_text (s0 : String) : Option ℚ :=
  let s := stripStr s0
  if s = "" then none
  else
    let cs := subAll matchSplaceno s.toList
    let layer1 : List ℚ :=
      fracTerms (findAll matchObchodniFrac cs) ++
        (pctTerms (findAll matchObchodniPct cs)).map (· / 100)
    if layer1 ≠ [] then some (clamp01 (sumQ layer1))
    else
      let layer2 : List ℚ := (pctTerms (findAll matchHlasovaciPct cs)).map (· / 100)
      if layer2 ≠ [] then some (clamp01 (sumQ layer2))
      else
        let layer3 : List ℚ :=
          fracTerms (findAll matchFracSlash cs) ++ fracTerms (findAll matchFracSemi cs)
        if layer3 ≠ [] then some (clamp01 (sumQ layer3))
        else
          let layer4 : List ℚ :=
            (pctTerms (findAll matchPct cs)).map (· / 100) ++
              (pctTerms (findAll matchProcenta cs)).map (· / 100)
          if layer4 ≠ [] then some (clamp01 (sumQ layer4))
          else none

/-- `_parse_pct_from_text` from src/ares_vr_extract.py: same four layers but
the result is in percent, clamped to [0,100]. -/
def parse_pct_from_text100 (s0 : String) : Option ℚ :=
  let s := stripStr s0
  if s = "" then none
  else
    let cs := subAll matchSplaceno s.toList
    let layer1 : List ℚ :=
      (fracTerms (findAll matchObchodniFrac cs)).map (· * 100) ++
        pctTerms (findAll matchObchodniPct cs)
    if layer1 ≠ [] then some (clamp100 (sumQ layer1))
    else
      let layer2 : List ℚ := pctTerms (findAll matchHlasovaciPct cs)
      if layer2 ≠ [] then some (clamp100 (sumQ layer2))
      else
        let layer3 : List ℚ :=
          (fracTerms (findAll matchFracSlash cs)).map (· * 100) ++
            (fracTerms (findAll matchFracSemi cs)).map (· * 100)
        if layer3 ≠ [] then some (clamp100 (sumQ layer3))
        else
          let layer4 : List ℚ :=
            pctTerms (findAll matchPct cs) ++ pctTerms (findAll matchProcenta cs)
          if layer4 ≠ [] then some (clamp100 (sumQ layer4))
          else none

/-- `parse_effective_from_text` from src/ownership_resolve_online.py: first
`efektivně X %` occurrence, as a fraction in [0,1]. -/
def parse_effective_from_text (s0 : String) : Option ℚ :=
  let s := stripStr s0
  match searchFirst matchEfektivne s.toList with
  | some g =>
    match to_float g with
    | some v => some (clamp01 (v / 100))
    | none => none
  | none => none

/-!
### Data model of the ARES VR payload (the subset the sources consume)

JSON objects are embedded as structures; an absent key is `none`.  An empty
JSON object and an absent one behave identically in every consulted branch
(all reads are `.get` with `None`/falsy handling), and both are modelled as
`none`.  Python truthiness on an optional string (`or` chains, `if not x`)
is `truthy` below: present and nonempty.
-/

def truthy : Option String → Bool
  | none => false
  | some s => s ≠ ""

/-- `x or d` on an optional string against a default. -/
def orDefault (x : Option String) (d : String) : String :=
  if truthy x then x.getD d else d

/-- `_is_active_item`: no (truthy) `datumVymazu`. -/
def isActiveDatum (datumVymazu : Option String) : Bool := !truthy datumVymazu

structure Obnos where
  typObnos : Option String
  hodnota : Option String
deriving DecidableEq, Repr

structure Podil where
  datumVymazu : Option String
  velikostPodilu : Option Obnos
  vklad : Option Obnos
  splaceni : Option Obnos
deriving DecidableEq, Repr

structure FyzickaOsoba where
  titulPredJmenem : Option String
  jmeno : Option String
  prijmeni : Option String
deriving DecidableEq, Repr

structure PravnickaOsoba where
  ico : Option String
  obchodniJmeno : Option String
  nazev : Option String
deriving DecidableEq, Repr

structure Osoba where
  fyzickaOsoba : Option FyzickaOsoba
  pravnickaOsoba : Option PravnickaOsoba
deriving DecidableEq, Repr

structure Spolecnik where
  datumVymazu : Option String
  datumZapisu : Option String
  osoba : Option Osoba
  podil : List Podil
deriving DecidableEq, Repr

structure SpolecniciBlok where
  datumVymazu : Option String
  nazevOrganu : Option String
  spolecnik : List Spolecnik
deriving DecidableEq, Repr

structure ClenOrganu where
  datumVymazu : Option String
  fyzickaOsoba : Option FyzickaOsoba
  pravnickaOsoba : Option PravnickaOsoba
deriving DecidableEq, Repr

structure AkcionariOrgan where
  datumVymazu : Option String
  nazevOrganu : Option String
  clenoveOrganu : List ClenOrganu
deriving DecidableEq, Repr

structure JmenoEntry where
  hodnota : Option String
  datumVymazu : Option String
deriving DecidableEq, Repr

structure Zaznam where
  primarniZaznam : Option Bool
  obchodniJmeno : List JmenoEntry
  spolecnici : List SpolecniciBlok
  akcionari : List AkcionariOrgan
deriving DecidableEq, Repr

/-- A VR payload; `errorField`/`urlField` are the `_error`/`_url` keys the
client stores on definitive HTTP errors. -/
structure VrPayload where
  icoId : Option String
  zaznamy : List Zaznam
  errorField : Option String
  urlField : Option String
deriving DecidableEq, Repr

/-- `payload.get("_error")` truthiness test used by the resolver. -/
def hasError (p : VrPayload) : Bool := truthy p.errorField

/-- The `Owner` dataclass of src/ares_vr_extract.py. -/
structure Owner where
  kind : String
  name : String
  ico : Option String
  share_pct : Option ℚ
  share_raw : Option String
  label : String
deriving DecidableEq, Repr

/-- `_pick_primary_or_record`: the first record flagged primary, else the
first record; `none` when the list is empty. -/
def pick_primary_or_record (zaznamy : List Zaznam) : Option Zaznam :=
  match zaznamy with
  | [] => none
  | z :: _ => some ((zaznamy.filter fun w => w.primarniZaznam = some true).headD z)

/-- Left-pad a digit list with `'0'` to width `w` (Python `str.zfill`). -/
def zfillChars (w : Nat) (d : List Char) : List Char :=
  List.replicate (w - d.length) '0' ++ d

/-- `_normalize_ico` from src/ares_vr_extract.py: `None`/empty → `None`;
otherwise strip, drop non-digits, `zfill(8)` (or `None` when no digit is
left). -/
def normalize_ico : Option String → Option String
  | none => none
  | some s =>
    if s = "" then none
    else
      let d := s.toList.filter isDig
      if d = [] then none else some (String.mk (zfillChars 8 d))

/-- `norm_ico` from src/ares_vr_client.py: drop non-digits, left-pad with
one zero only when exactly 7 digits remain. -/
def norm_ico (s : String) : String :=
  let digits := s.toList.filter isDig
  if digits.length = 7 then String.mk ('0' :: digits) else String.mk digits

/-- ASCII upper-casing (`str.upper` on the consulted values). -/
def ucChar (c : Char) : Char :=
  if 'a' ≤ c && c ≤ 'z' then Char.ofNat (c.toNat - 32) else c

def upperStr (s : String) : String := String.mk (s.toList.map ucChar)

/-- Shape check modelling `datetime.fromisoformat` acceptance on the
registry's ISO-8601 date strings: `YYYY-MM-DD`, optionally followed by a
time part introduced by `T` or a space. -/
def isIsoShape (s : String) : Bool :=
  match s.toList with
  | y1 :: y2 :: y3 :: y4 :: '-' :: m1 :: m2 :: '-' :: d1 :: d2 :: rest =>
    isDig y1 && isDig y2 && isDig y3 && isDig y4 &&
      isDig m1 && isDig m2 && isDig d1 && isDig d2 &&
      digitsVal [m1, m2] ≥ 1 && digitsVal [m1, m2] ≤ 12 &&
      digitsVal [d1, d2] ≥ 1 && digitsVal [d1, d2] ≤ 31 &&
      (match rest with
       | [] => true
       | c :: more =>
         (c = 'T' || c = ' ') &&
           more.all fun x => isDig x || x = ':' || x = '.' || x = '+' || x = '-')
  | _ => false

/-- `_parse_date`: `None` for absent/unparseable input, else the (valid ISO)
string itself.  Valid ISO strings of the registry's uniform format compare
chronologically exactly as they compare lexicographically, which is how the
comparison below uses them. -/
def parse_date : Option String → Option String
  | none => none
  | some s => if isIsoShape s then some s else none

/-- `(d or datetime.min)` as a comparable key: `datetime.min` is below every
registry date and is mapped to `""`, the lexicographically least key. -/
def dateKey (d : Option String) : String := d.getD ""

/-- `_person_name`: join the truthy title/first/last parts, default label
when nothing is left. -/
def person_name (f : FyzickaOsoba) : String :=
  let parts := ([f.titulPredJmenem, f.jmeno, f.prijmeni].filterMap id).filter
    fun p => p ≠ ""
  let s := stripStr (String.intercalate " " parts)
  if s = "" then "Fyzická osoba (neznámá)" else s

/-- One ``tag:hodnota typObnos`` fragment of `_compose_share_raw`. -/
def obnosPart (tag : String) (o : Option Obnos) : Option String :=
  match o with
  | none => none
  | some v =>
    match v.hodnota with
    | none => none
    | some h => some (stripStr (tag ++ ":" ++ h ++ " " ++ v.typObnos.getD ""))

/-- `_compose_share_raw`: the `vklad` / `velikost` / `splaceno` fragments
joined by `"; "`. -/
def compose_share_raw (p : Podil) : String :=
  String.intercalate "; "
    (([obnosPart "vklad" p.vklad, obnosPart "velikost" p.velikostPodilu,
       obnosPart "splaceno" p.splaceni]).filterMap id)

/-- Numeric contribution of one active `podil` record in
`_parse_share_from_podil_list`: `velikostPodilu.hodnota` read as a direct
float when `typObnos` upper-cases to `PROCENTA` (robust text parse as the
fallback), robust text parse otherwise. -/
def podilContribution (p : Podil) : Option ℚ :=
  match p.velikostPodilu with
  | none => none
  | some vp =>
    match vp.hodnota with
    | none => none
    | some h =>
      if upperStr (vp.typObnos.getD "") = "PROCENTA" then
        match to_float h with
        | some v => some v
        | none => parse_pct_from_text100 h
      else parse_pct_from_text100 h

/-- `_parse_share_from_podil_list`: sum the contributions of the active
records (percent scale, clamped to [0,100]; `None` when no record
contributed) and compose the raw display string (nonempty fragments joined
by `"; "`, truncated to 1000 characters). -/
def parse_share_from_podil_list (podily : List Podil) : Option ℚ × String :=
  let act := podily.filter fun p => isActiveDatum p.datumVymazu
  let contrib := act.filterMap podilContribution
  let raw := String.mk
    ((String.intercalate "; " ((act.map compose_share_raw).filter fun r => r ≠ "")).toList.take 1000)
  (if contrib ≠ [] then some (clamp100 (sumQ contrib)) else none, raw)

/-!
### `extract_current_owners` (src/ares_vr_extract.py)
-/

/-- The per-key record held in the `latest` dictionary of the `spolecnici`
deduplication loop. -/
structure LatestRec where
  label : String
  kind : String
  name : String
  ico : Option String
  sp : Spolecnik
  datumZapisu : Option String
deriving DecidableEq, Repr

/-- Dictionary lookup on the insertion-ordered association list. -/
def lookupKey (l : List ((String × String) × LatestRec)) (k : String × String) :
    Option LatestRec :=
  match l.find? fun e => e.1 = k with
  | some e => some e.2
  | none => none

/-- Dictionary write: replace in place (Python dicts keep the original
position of an updated key), append otherwise. -/
def setKey : List ((String × String) × LatestRec) → String × String → LatestRec →
    List ((String × String) × LatestRec)
  | [], k, v => [(k, v)]
  | e :: rest, k, v => if e.1 = k then (k, v) :: rest else e :: setKey rest k v

/-- The identity taken from a `spolecnik` member: `(kind, name, ico, ident)`;
`none` when neither a legal nor a natural person is attached (the
"unknown – skip" branch).  The legal-person branch is tested first, as in the
source. -/
def spolecnikIdent (sp : Spolecnik) : Option (String × String × Option String × String) :=
  let osoba : Osoba := sp.osoba.getD ⟨none, none⟩
  match osoba.pravnickaOsoba with
  | some pos =>
    let o_ico := normalize_ico pos.ico
    let o_name := stripStr (orDefault pos.obchodniJmeno
      (orDefault pos.nazev ("Společnost (IČO " ++ o_ico.getD "?" ++ ")")))
    some ("COMPANY", o_name, o_ico,
      "COMPANY:" ++ (if truthy o_ico then o_ico.getD "" else o_name))
  | none =>
    match osoba.fyzickaOsoba with
    | some fos =>
      let n := person_name fos
      some ("PERSON", n, none, "PERSON:" ++ n)
    | none => none

/-- The `latest` dictionary after the `spolecnici` double loop: active
blocks, active members, keyed by `(label, ident)`, keeping the record with
the strictly newest `datumZapisu`. -/
def latestOfZaznam (z : Zaznam) : List ((String × String) × LatestRec) :=
  (z.spolecnici.filter fun b => isActiveDatum b.datumVymazu).foldl
    (fun acc blok =>
      let label := orDefault blok.nazevOrganu "Společníci"
      (blok.spolecnik.filter fun sp => isActiveDatum sp.datumVymazu).foldl
        (fun acc2 sp =>
          match spolecnikIdent sp with
          | none => acc2
          | some (kind, name, ico, ident) =>
            let dz := parse_date sp.datumZapisu
            let key := (label, ident)
            let newRec : LatestRec := ⟨label, kind, name, ico, sp, sp.datumZapisu⟩
            match lookupKey acc2 key with
            | none => setKey acc2 key newRec
            | some prev =>
              if dateKey (parse_date prev.datumZapisu) < dateKey dz then
                setKey acc2 key newRec
              else acc2)
        acc)
    []

/-- Conversion of the `latest` records to `Owner`s: share parsed from the
member's `podil` list; empty raw text becomes `None`. -/
def ownersOfLatest (l : List ((String × String) × LatestRec)) : List Owner :=
  l.map fun e =>
    let r := e.2
    let pr := parse_share_from_podil_list r.sp.podil
    ⟨r.kind, r.name, r.ico, pr.1,
      if pr.2 = "" then none else some pr.2, r.label⟩

/-- One member of a shareholder organ: the legal person (tested first) or
the natural person, emitted with `share_pct = 100.0` and `share_raw = None`;
`none` when neither is attached. -/
def akcMemberOwner (label : String) (a : ClenOrganu) : Option Owner :=
  match a.pravnickaOsoba with
  | some pos =>
    let o_ico := normalize_ico pos.ico
    let o_name := stripStr (orDefault pos.obchodniJmeno
      (orDefault pos.nazev ("Společnost (IČO " ++ o_ico.getD "?" ++ ")")))
    some ⟨"COMPANY", o_name, o_ico, some 100, none, label⟩
  | none =>
    match a.fyzickaOsoba with
    | some fos => some ⟨"PERSON", person_name fos, none, some 100, none, label⟩
    | none => none

/-- One active shareholder organ: its active members appended under the
organ's label (default `"Akcionáři"`). -/
def akcStep (acc : List Owner) (org : AkcionariOrgan) : List Owner :=
  acc ++
    (org.clenoveOrganu.filter fun a => isActiveDatum a.datumVymazu).filterMap
      (akcMemberOwner (orDefault org.nazevOrganu "Akcionáři"))

/-- The `akcionari` loop: every active member of every active shareholder
organ is emitted with `share_pct = 100.0` and `share_raw = None`, under the
organ's label. -/
def akcionariOwners (z : Zaznam) : List Owner :=
  (z.akcionari.filter fun o => isActiveDatum o.datumVymazu).foldl akcStep []

/-- `extract_current_owners`: `(company_ico, company_name, owners)`. -/
def extract_current_owners (p : VrPayload) : String × String × List Owner :=
  let company_ico := normalize_ico (some (stripStr (p.icoId.getD "")))
  match pick_primary_or_record p.zaznamy with
  | none => (company_ico.getD "", "Neznámý subjekt", [])
  | some z =>
    let ojActive := z.obchodniJmeno.filter fun x => isActiveDatum x.datumVymazu
    let name :=
      match ojActive.getLast? with
      | some e => orDefault e.hodnota "Neznámý subjekt"
      | none =>
        match z.obchodniJmeno.getLast? with
        | some e => orDefault e.hodnota "Neznámý subjekt"
        | none => "Neznámý subjekt"
    (company_ico.getD "", name, ownersOfLatest (latestOfZaznam z) ++ akcionariOwners z)

/-!
### Tree resolver (src/ownership_resolve_online.py)
-/

/-- The `NodeLine` dataclass: `(depth, label, text, effective_pct)`. -/
structure NodeLine where
  depth : Nat
  label : String
  text : String
  effective_pct : Option ℚ
deriving DecidableEq, Repr

/-- A structured warning `{kind, ico, name, text}`. -/
structure Warning where
  kind : String
  ico : String
  name : String
  text : String
deriving DecidableEq, Repr

/-- Python `f"{x:.2f}"` on the model rationals: fixed two fractional digits,
nearest hundredth.  (CPython rounds the decimal expansion of the binary
double half-to-even; no claim in this development depends on the digits of a
formatted value, only on their determinism.) -/
def fmt2 (q : ℚ) : String :=
  let n : Int := round (q * 100)
  let a := n.natAbs
  (if n < 0 then "-" else "") ++ toString (a / 100) ++ "." ++
    (if a % 100 < 10 then "0" else "") ++ toString (a % 100)

/-- The registry client as the resolver sees it: the per-ID payloads (the
cache/network composite, stable for a run) and the per-ID fetch timestamps
stored next to them.  `get_vr` reads only the payload column. -/
structure ClientView where
  payloads : String → VrPayload
  fetchedAt : String → String

/-- `get_vr` as used by the resolver: normalize the ID, return the stored
payload.  The timestamp column is not consulted. -/
def getVrPure (c : ClientView) (ico : String) : VrPayload :=
  c.payloads (norm_ico ico)

/-- `(manual_overrides or {}).get(c_ico, [])`. -/
def ovLookup (ov : List (String × List (String × ℚ))) (k : String) :
    List (String × ℚ) :=
  match ov.find? fun e => e.1 = k with
  | some e => e.2
  | none => []

/-- One manual owner: display name opportunistically resolved through the
client (`extract_current_owners` on the fetched payload; its name is used
when nonempty), ID zero-filled to 8, share in percent, synthetic raw text,
label `"Manuálně doplněno"`. -/
def manualOwner (g : String → VrPayload) (owner_ico : String) (owner_share : ℚ) :
    Owner :=
  let padded := String.mk (zfillChars 8 owner_ico.toList)
  let name2 := (extract_current_owners (g owner_ico)).2.1
  ⟨"COMPANY",
    (if name2 ≠ "" then name2 else "Společnost (IČO " ++ padded ++ ")"),
    some padded, some (owner_share * 100),
    some ("velikost:" ++ fmt2 (owner_share * 100) ++ " PROCENTA"),
    "Manuálně doplněno"⟩

/-- `by_label`: group the owners by label, first-seen label order, members
in arrival order (Python `dict.setdefault` + `append`). -/
def groupByLabel (owners : List Owner) : List (String × List Owner) :=
  owners.foldl
    (fun acc o =>
      if acc.any fun gr => gr.1 = o.label then
        acc.map fun gr => if gr.1 = o.label then (gr.1, gr.2 ++ [o]) else gr
      else acc ++ [(o.label, [o])])
    []

/-- Step 1 of the per-owner block: the local share in [0,1] —
`share_pct / 100` when present, else the robust text parse of a truthy
`share_raw`. -/
def localShareOf (o : Owner) : Option ℚ :=
  match o.share_pct with
  | some v => some (v / 100)
  | none =>
    match o.share_raw with
    | some raw => if raw ≠ "" then parse_pct_from_text raw else none
    | none => none

/-- The `efektivně X %` extraction applied to `share_raw or ""`. -/
def effShareOf (o : Owner) : Option ℚ :=
  parse_effective_from_text (o.share_raw.getD "")

/-- The company-owner test: `o.kind == "COMPANY" and o.ico` (truthy). -/
def isCompanyOwner (o : Owner) : Bool :=
  o.kind = "COMPANY" && truthy o.ico

/-- `share_raw or "?"`. -/
def rawOrQmark (o : Owner) : String := orDefault o.share_raw "?"

/-- Step 2 of the per-owner block: the emitted `NodeLine` for one owner at
header depth `depth` under parent multiplier `m` (both the company-owner and
the person-owner branches). -/
def ownerNodeLine (label : String) (o : Owner) (depth : Nat) (m : ℚ) : NodeLine :=
  let local_share := localShareOf o
  let eff_share := effShareOf o
  if isCompanyOwner o then
    match local_share with
    | some s =>
      ⟨depth + 2, label,
        o.name ++ " — " ++ fmt2 (s * 100) ++ "% (IČO " ++ o.ico.getD "" ++ ")",
        some (m * s * 100)⟩
    | none =>
      match eff_share with
      | some e =>
        ⟨depth + 2, label,
          o.name ++ " — " ++ rawOrQmark o ++ " (IČO " ++ o.ico.getD "" ++ ")",
          some (e * 100)⟩
      | none =>
        ⟨depth + 2, label,
          o.name ++ " — " ++ rawOrQmark o ++ " (IČO " ++ o.ico.getD "" ++ ")",
          none⟩
  else
    match local_share with
    | some s =>
      ⟨depth + 2, label,
        o.name ++ " — " ++ fmt2 (s * 100) ++ "% (efektivně " ++ fmt2 (m * s * 100) ++ "%)",
        some (m * s * 100)⟩
    | none =>
      match eff_share with
      | some e =>
        let base_txt :=
          match o.share_pct with
          | some v => fmt2 v ++ "%"
          | none => rawOrQmark o
        ⟨depth + 2, label,
          o.name ++ " — " ++ base_txt ++ " (efektivně " ++ fmt2 (e * 100) ++ "%)",
          some (e * 100)⟩
      | none =>
        ⟨depth + 2, label,
          o.name ++ (if truthy o.share_raw then " — " ++ o.share_raw.getD "" else ""),
          none⟩

/-- The multiplier passed to the recursive call for a company owner:
`m · s` when the local share is known, else the effective override, else `m`
unchanged. -/
def nextMult (o : Owner) (m : ℚ) : ℚ :=
  match localShareOf o with
  | some s => m * s
  | none =>
    match effShareOf o with
    | some e => e
    | none => m

/-!
`walk` recurses with `depth + 3` and returns as soon as `depth > max_depth`,
so the recursion depth is bounded; the embedding makes this structural with
a fuel argument consumed once per nesting level (the child walk is passed to
the loop helpers as the function `walkChild`).  Called with
`fuel = max_depth + 1` at depth 0, every reachable call satisfies
`depth ≥ 3·(max_depth + 1 − fuel)`, so when the fuel hits 0 the depth guard
(tested first, before the fuel) has already returned: the fuel-exhaustion
branch is unreachable from `resolve_tree_online`.
-/

/-- The `for o in lst` loop: the owner's line, then (for a company owner
with a truthy ID) the recursive child walk at `depth + 3`. -/
def processOwnersF (walkChild : String → Nat → ℚ → List NodeLine × List Warning)
    (label : String) : List Owner → Nat → ℚ → List NodeLine × List Warning
  | [], _, _ => ([], [])
  | o :: rest, depth, m =>
    let line := ownerNodeLine label o depth m
    let this : List NodeLine × List Warning :=
      if isCompanyOwner o then
        let sub := walkChild (o.ico.getD "") (depth + 3) (nextMult o m)
        (line :: sub.1, sub.2)
      else ([line], [])
    let rw := processOwnersF walkChild label rest depth m
    (this.1 ++ rw.1, this.2 ++ rw.2)

/-- The `for label, lst in by_label.items()` loop: label line, then the
owners of the group. -/
def processGroupsF (walkChild : String → Nat → ℚ → List NodeLine × List Warning) :
    List (String × List Owner) → Nat → ℚ → List NodeLine × List Warning
  | [], _, _ => ([], [])
  | (label, lst) :: rest, depth, m =>
    let ow := processOwnersF walkChild label lst depth m
    let rw := processGroupsF walkChild rest depth m
    (⟨depth + 1, label, label ++ ":", none⟩ :: (ow.1 ++ rw.1), ow.2 ++ rw.2)

/-- The body of `walk(ico, depth, parent_multiplier)`. -/
def walkF (g : String → VrPayload) (md : Nat)
    (ov : List (String × List (String × ℚ))) :
    Nat → String → Nat → ℚ → List NodeLine × List Warning
  | fuel, ico, depth, m =>
    if depth > md then ([⟨depth, "", "⚠️ Překročena max hloubka", none⟩], [])
    else
      match fuel with
      | 0 => ([], [])
      | fuel + 1 =>
        let payload := g ico
        if hasError payload then
          let errTxt := "⚠️ Nelze načíst ARES VR pro " ++ ico ++ ": " ++
            payload.errorField.getD ""
          ([⟨depth, "", errTxt, none⟩], [⟨"error", ico, "", errTxt⟩])
        else
          let ex := extract_current_owners payload
          let c_ico := ex.1
          let c_name := ex.2.1
          let header : NodeLine := ⟨depth, "", c_name ++ " (IČO " ++ c_ico ++ ")",
            if depth = 0 then some (m * 100) else none⟩
          let owners := ex.2.2 ++ (ovLookup ov c_ico).map fun e => manualOwner g e.1 e.2
          let unres : List Warning :=
            if owners = [] then
              [⟨"unresolved", c_ico, c_name,
                "⚠️ Nepodařilo se dohledat vlastníka v OR pro " ++ c_name ++
                  " (IČO " ++ c_ico ++ ")"⟩]
            else []
          let gw := processGroupsF (fun i d mm => walkF g md ov fuel i d mm)
            (groupByLabel owners) depth m
          (header :: gw.1, unres ++ gw.2)

/-- `resolve_tree_online(client, root_ico, max_depth, manual_overrides)`:
initial call `walk(root_ico, depth=0, parent_multiplier=1.0)`. -/
def resolve_tree_online (c : ClientView) (root_ico : String) (md : Nat)
    (ov : List (String × List (String × ℚ))) : List NodeLine × List Warning :=
  walkF (getVrPure c) md ov (md + 1) root_ico 0 1

/-!
### Registry client with cache (src/ares_vr_client.py)

The network is modelled by the outcome a GET for a (normalized) ID produces
in the modelled window: a 200 payload, a definitive 400/404, or persistent
failure (429/5xx/transport on every retry).  Timing (throttle, backoff,
timeout) is real time and outside the embedding; what is modelled is the
number of HTTP attempts a call performs and the cache transitions.  The
cache serializes payloads as JSON text; serialization round-trips on the
payload model, so rows store the payload itself.
-/

inductive NetOutcome
  | ok (payload : VrPayload)
  | deferr (code : Nat)
  | down
deriving DecidableEq, Repr

/-- Client state: the `ares_vr_cache` rows `(ico, payload_json, fetched_at)`,
the network, the `datetime.now` the next write will record, and the
configured retry cap. -/
structure ClientSt where
  cache : List (String × VrPayload × String)
  net : String → NetOutcome
  now : String
  max_retries : Nat

def ARES_VR_URL (ico : String) : String :=
  "https://ares.gov.cz/ekonomicke-subjekty-v-be/rest/ekonomicke-subjekty-vr/" ++ ico

/-- The error record cached for a definitive 400/404. -/
def errPayload (code : Nat) (url : String) : VrPayload :=
  ⟨none, [], some ("ARES HTTP " ++ toString code), some url⟩

/-- `_cache_get`. -/
def cacheGet (rows : List (String × VrPayload × String)) (ico : String) :
    Option VrPayload :=
  match rows.find? fun r => r.1 = ico with
  | some r => some r.2.1
  | none => none

/-- `_cache_put`: `INSERT … ON CONFLICT(ico) DO UPDATE`, stamping `now`. -/
def cachePut (st : ClientSt) (ico : String) (p : VrPayload) : ClientSt :=
  let upsert : List (String × VrPayload × String) → List (String × VrPayload × String) :=
    fun rows =>
      if rows.any fun r => r.1 = ico then
        rows.map fun r => if r.1 = ico then (ico, p, st.now) else r
      else rows ++ [(ico, p, st.now)]
  ⟨upsert st.cache, st.net, st.now, st.max_retries⟩

/-- `get_vr(ico, force_refresh)`: returns the payload (or the raised
`RuntimeError` text after exhausted retries), the new client state, and the
number of HTTP attempts the call performed. -/
def get_vr (st : ClientSt) (ico0 : String) (force_refresh : Bool) :
    Except String VrPayload × ClientSt × Nat :=
  let ico := norm_ico ico0
  match if force_refresh then none else cacheGet st.cache ico with
  | some p => (Except.ok p, st, 0)
  | none =>
    match st.net ico with
    | NetOutcome.ok payload => (Except.ok payload, cachePut st ico payload, 1)
    | NetOutcome.deferr code =>
      let p := errPayload code (ARES_VR_URL ico)
      (Except.ok p, cachePut st ico p, 1)
    | NetOutcome.down =>
      (Except.error "ARES request failed after retries", st, st.max_retries + 1)

/-- The payload a definitive network outcome stores for a (normalized) ID:
the 200 body, or the `_error` record for a 400/404; `none` when the network
fails persistently (nothing is cached then). -/
def netPayload (st : ClientSt) (ico : String) : Option VrPayload :=
  match st.net ico with
  | NetOutcome.ok p => some p
  | NetOutcome.deferr code => some (errPayload code (ARES_VR_URL ico))
  | NetOutcome.down => none

/-!
### UBO evaluator (src/app.py)
-/

/-- Insertion-ordered dictionary read. -/
def alistGet [DecidableEq κ] (l : List (κ × α)) (k : κ) : Option α :=
  match l.find? fun e => e.1 = k with
  | some e => some e.2
  | none => none

/-- Insertion-ordered dictionary write: update in place, else append. -/
def alistSet [DecidableEq κ] : List (κ × α) → κ → α → List (κ × α)
  | [], k, v => [(k, v)]
  | e :: rest, k, v => if e.1 = k then (k, v) :: rest else e :: alistSet rest k v

/-- `fmt_pct` from src/app.py. -/
def fmt_pct : Option ℚ → String
  | none => "—"
  | some x => fmt2 (x * 100) ++ "%"

/-- One entry of `final_persons`. -/
structure PersonVals where
  cap : ℚ
  vote : ℚ
  veto : Bool
  org_majority : Bool
  substitute_ubo : Bool
deriving DecidableEq, Repr

/-- `add_reason`. -/
def addReason (reasons : List (String × List String)) (n : String) (r : String) :
    List (String × List String) :=
  match alistGet reasons n with
  | some l => alistSet reasons n (l ++ [r])
  | none => reasons ++ [(n, [r])]

/-- The individual-criteria loop of the submitted branch (src/app.py
1292–1310): capital or voting strictly above the threshold, veto, organ
majority, statutory substitute; positive persons are entered into `ubo` with
their values and each positive criterion appends a reason. -/
def evalIndividual (fp : List (String × PersonVals)) (threshold_pct : ℚ) :
    List (String × PersonVals) × List (String × List String) :=
  let thr := threshold_pct / 100
  fp.foldl
    (fun acc e =>
      let n := e.1
      let v := e.2
      let r1 := if v.cap > thr then
          addReason acc.2 n
            ("podíl na kapitálu " ++ fmt_pct (some v.cap) ++ " > " ++ fmt2 threshold_pct ++ "%")
        else acc.2
      let r2 := if v.vote > thr then
          addReason r1 n
            ("hlasovací práva " ++ fmt_pct (some v.vote) ++ " > " ++ fmt2 threshold_pct ++ "%")
        else r1
      let r3 := if v.veto then addReason r2 n "právo veta → rozhodující vliv" else r2
      let r4 := if v.org_majority then
          addReason r3 n "jmenuje/odvolává většinu orgánu → rozhodující vliv"
        else r3
      let r5 := if v.substitute_ubo then
          addReason r4 n "náhradní skutečný majitel (§ 5 ZESM)"
        else r4
      let is_ubo := v.cap > thr || v.vote > thr || v.veto || v.org_majority || v.substitute_ubo
      (if is_ubo then alistSet acc.1 n v else acc.1, r5))
    ([], [])

/-- `block_total`: `sum(final_persons.get(n, {"vote": 0.0})["vote"] for n in
block_members) if block_members else 0.0`. -/
def blockTotal (fp : List (String × PersonVals)) (bm : List String) : ℚ :=
  if bm = [] then 0
  else sumQ (bm.map fun n => ((alistGet fp n).map PersonVals.vote).getD 0)

/-- The loop body of the voting-block promotion: a member present in
`final_persons` is written into `ubo` with its values and given the block
reason; an absent member is skipped. -/
def blockPromoteStep (fp : List (String × PersonVals)) (block_name : String)
    (bt threshold_pct : ℚ)
    (acc : List (String × PersonVals) × List (String × List String)) (n : String) :
    List (String × PersonVals) × List (String × List String) :=
  match alistGet fp n with
  | some v =>
    (alistSet acc.1 n v,
      addReason acc.2 n
        ("účast v voting blocku „" ++ block_name ++ "“ s " ++
          fmt_pct (some bt) ++ " > " ++ fmt2 threshold_pct ++ "%"))
  | none => acc

/-- The voting-block step (src/app.py 1312–1319): when the member list is
nonempty and its summed voting strictly exceeds the threshold, every member
present in `final_persons` is written into `ubo` and given the block
reason. -/
def votingBlockStep (fp : List (String × PersonVals)) (bm : List String)
    (block_name : String) (threshold_pct : ℚ)
    (ubo : List (String × PersonVals)) (reasons : List (String × List String)) :
    List (String × PersonVals) × List (String × List String) :=
  let thr := threshold_pct / 100
  let bt := blockTotal fp bm
  if bm ≠ [] ∧ bt > thr then
    bm.foldl (blockPromoteStep fp block_name bt threshold_pct) (ubo, reasons)
  else (ubo, reasons)

/-- The whole UBO determination of the submitted branch: individual criteria
then the voting-block promotion. -/
def evaluate_ubo (fp : List (String × PersonVals)) (bm : List String)
    (block_name : String) (threshold_pct : ℚ) :
    List (String × PersonVals) × List (String × List String) :=
  let ir := evalIndividual fp threshold_pct
  votingBlockStep fp bm block_name threshold_pct ir.1 ir.2

/-!
### `compute_effective_persons` (src/app.py)

The trace lines fed to it by the app are the resolver's `NodeLine` objects,
so `_line_depth_text` is the `(ln.depth, ln.text)` projection.  The three
line classes are told apart by `RE_COMPANY_HEADER` (anchored match),
`str.endswith(":")`, `ICO_IN_LINE` (search) and `DASH_SPLIT` — embedded
below with the same anchoring, case sensitivity and greediness.
-/

/-- Case-sensitive literal match. -/
def litCS : List Char → List Char → Option (List Char)
  | [], s => some s
  | _ :: _, [] => none
  | p :: ps, c :: cs => if c = p then litCS ps cs else none

/-- Feasibility of the `^(.+)\s+` part of `RE_COMPANY_HEADER` on the text
`u` standing before `\(IČO…`: some split of `u` into a nonempty,
newline-free `name` part and a nonempty whitespace block must exist.  The
whitespace suffix of `u` bounds the split from the right; newline-freedom
bounds it from the left; the test picks the least split and checks it. -/
def nameThenWsOk (u : List Char) : Bool :=
  let wsLen := (u.reverse.takeWhile isWs).length
  if wsLen = 0 then false
  else
    let i := max 1 (u.length - wsLen)
    decide (i ≤ u.length - 1) && ((u.take i).all fun c => c ≠ '\n')

/-- `RE_COMPANY_HEADER = ^(?P<name>.+)\s+\(IČO\s+(?P<ico>\d{7,8})\)\s*$`
(case-sensitive, `re.match`).  Checked from the right end: optional
trailing whitespace, `)`, a digit run of exactly 7 or 8, at least one
whitespace, the literal `(IČO` reversed, then the `.+\s+` feasibility on
what is left. -/
def matchCompanyHeader (t : String) : Bool :=
  match skipWs t.toList.reverse with
  | ')' :: rev2 =>
    let dr := digitsRun rev2
    if dr.1.length = 7 || dr.1.length = 8 then
      match dr.2 with
      | c :: _ =>
        if isWs c then
          match skipWs dr.2 with
          | 'O' :: 'Č' :: 'I' :: '(' :: rev5 => nameThenWsOk rev5.reverse
          | _ => false
        else false
      | [] => false
    else false
  | _ => false

/-- `ICO_IN_LINE = \(IČO\s+(\d{7,8})\)` (case-sensitive, `re.search`):
attempt at the head of the input. -/
def matchIcoInLine (s : List Char) : Option (String × List Char) :=
  match s with
  | '(' :: r1 =>
    (litCS "IČO".toList r1).bind fun r2 =>
      match r2 with
      | c :: _ =>
        if isWs c then
          let dr := digitsRun (skipWs r2)
          if dr.1.length = 7 || dr.1.length = 8 then
            match dr.2 with
            | ')' :: rest => some (String.mk dr.1, rest)
            | _ => none
          else none
        else none
      | [] => none
  | _ => none

/-- `DASH_SPLIT = \s+[—–-]\s+`: attempt at the head of the input. -/
def matchDashSep (s : List Char) : Option (Unit × List Char) :=
  match s with
  | c :: r =>
    if isWs c then
      match skipWs r with
      | d :: r2 =>
        if d = '—' || d = '–' || d = '-' then
          match r2 with
          | e :: r3 => if isWs e then some ((), skipWs r3) else none
          | [] => none
        else none
      | [] => none
    else none
  | [] => none

/-- `DASH_SPLIT.split(t, maxsplit=1)[0]`: the text before the first
separator occurrence (the whole text when none). -/
def dashSplitFirstAux : Nat → List Char → List Char
  | 0, s => s
  | _, [] => []
  | fuel + 1, c :: rest =>
    match matchDashSep (c :: rest) with
    | some _ => []
    | none => c :: dashSplitFirstAux fuel rest

def dashSplitFirst (s : List Char) : List Char := dashSplitFirstAux s.length s

/-- One recorded debug path of `compute_effective_persons`. -/
structure DebugPath where
  parent_depth : Nat
  parent_mult : ℚ
  local_share : Option ℚ
  eff : Option ℚ
  source : String
  text : String
deriving DecidableEq, Repr

/-- One per-person aggregate record. -/
structure PersonEntry where
  ownership : ℚ
  voting : ℚ
  paths : List (Nat × Option ℚ × String)
  debug_paths : List DebugPath
deriving DecidableEq, Repr

/-- Scan state: the per-name records (insertion ordered), the header stack
(Python list, bottom first, top last) and the pending multiplier for the
next header. -/
structure CepState where
  persons : List (String × PersonEntry)
  header_stack : List (Nat × ℚ)
  pending : Option ℚ
deriving DecidableEq, Repr

/-- Pop from the top of the stack while the predicate holds of the top
(`while header_stack and p(header_stack[-1]): header_stack.pop()`). -/
def popWhileAux (p : Nat × ℚ → Bool) : Nat → List (Nat × ℚ) → List (Nat × ℚ)
  | 0, st => st
  | fuel + 1, st =>
    match st.getLast? with
    | some top => if p top then popWhileAux p fuel st.dropLast else st
    | none => st

def popWhile (p : Nat × ℚ → Bool) (st : List (Nat × ℚ)) : List (Nat × ℚ) :=
  popWhileAux p st.length st

/-- The loop body of `compute_effective_persons` for one trace line. -/
def cepStep (st : CepState) (ln : NodeLine) : CepState :=
  let depth := ln.depth
  let t := ln.text
  if t = "" then st
  else if matchCompanyHeader t then
    let stack1 := popWhile (fun e => e.1 ≥ depth) st.header_stack
    let parent_mult := ((stack1.getLast?).map fun e => e.2).getD 1
    let this_mult := st.pending.getD parent_mult
    ⟨st.persons, stack1 ++ [(depth, this_mult)], none⟩
  else if t.endsWith ":" then st
  else
    let name := stripStr (String.mk (dashSplitFirst t.toList))
    let is_company := (searchFirst matchIcoInLine t.toList).isSome
    let expected := depth - 2
    let stack1 := popWhile (fun e => e.1 > expected) st.header_stack
    let parent_mult := ((stack1.getLast?).map fun e => e.2).getD 1
    let parent_depth := ((stack1.getLast?).map fun e => e.1).getD 0
    let node_eff := ln.effective_pct.map fun v => v / 100
    if is_company then
      let fb : Option ℚ :=
        match parse_pct_from_text t with
        | some v => some v
        | none =>
          match searchFirst matchEfektivne t.toList with
          | some g =>
            match to_float g with
            | some effp => if parent_mult > 0 then some (effp / 100 / parent_mult) else none
            | none => none
          | none => none
      let local_share : Option ℚ :=
        match node_eff with
        | some ne => if parent_mult > 0 then some (ne / parent_mult) else fb
        | none => fb
      ⟨st.persons, stack1, local_share.map fun l => parent_mult * l⟩
    else
      let entry := (alistGet st.persons name).getD ⟨0, 0, [], []⟩
      let lse : Option ℚ × Option ℚ × Option String :=
        match node_eff with
        | some ne => (none, some ne, some "node_eff(person)")
        | none =>
          match parse_pct_from_text t with
          | some l => (some l, some (parent_mult * l), some "text(person)")
          | none =>
            match searchFirst matchEfektivne t.toList with
            | some g =>
              match to_float g with
              | some effp => (none, some (effp / 100), some "efektivně_text(person)")
              | none => (none, none, none)
            | none => (none, none, none)
      let entry2 : PersonEntry :=
        match lse.2.1 with
        | some e =>
          ⟨entry.ownership + e, entry.voting + e,
            entry.paths ++ [(parent_depth, some e, t)], entry.debug_paths⟩
        | none =>
          ⟨entry.ownership, entry.voting,
            entry.paths ++ [(parent_depth, none, t)], entry.debug_paths⟩
      let entry3 : PersonEntry :=
        ⟨entry2.ownership, entry2.voting, entry2.paths,
          entry2.debug_paths ++
            [⟨parent_depth, parent_mult, lse.1, lse.2.1, (lse.2.2).getD "unknown", t⟩]⟩
      ⟨alistSet st.persons name entry3, stack1, st.pending⟩

/-- `compute_effective_persons`: fold the lines, then clamp every person's
ownership and voting sums to [0,1]. -/
def compute_effective_persons (lines : List NodeLine) : List (String × PersonEntry) :=
  ((lines.foldl cepStep ⟨[], [], none⟩).persons).map fun e =>
    (e.1, ⟨clamp01 e.2.ownership, clamp01 e.2.voting, e.2.paths, e.2.debug_paths⟩)

/-!
### Concrete fixtures used by the theorems below
-/

/-- A `podil` record: `velikostPodilu = {typObnos: PROCENTA, hodnota: "50"}`. -/
def podilP50 : Podil := ⟨none, some ⟨some "PROCENTA", some "50"⟩, none, none⟩

/-- Root payload `00000001` with the single member Jan Novák at 50 %. -/
def spNovak : Spolecnik :=
  ⟨none, some "2020-01-01", some ⟨some ⟨none, some "Jan", some "Novák"⟩, none⟩, [podilP50]⟩

def zRoot : Zaznam := ⟨some true, [⟨some "Root", none⟩], [⟨none, none, [spNovak]⟩], []⟩

def pRoot : VrPayload := ⟨some "00000001", [zRoot], none, none⟩

/-- The cached error record an unknown ID resolves to. -/
def pErr404 : VrPayload := ⟨none, [], some "ARES HTTP 404", some "u"⟩

/-- Client view serving `pRoot` for `00000001` and a 404 otherwise. -/
def cvRoot : ClientView :=
  ⟨fun i => if i = "00000001" then pRoot else pErr404, fun _ => "t0"⟩

/-- The same payload column under a different timestamp column. -/
def cvRootLater : ClientView :=
  ⟨fun i => if i = "00000001" then pRoot else pErr404, fun _ => "t1"⟩

/-- A company without owners (empty member and shareholder blocks). -/
def pEmpty : VrPayload :=
  ⟨some "00000007", [⟨some true, [⟨some "Empty sro", none⟩], [], []⟩], none, none⟩

/-- A shareholder organ whose header is `Valná hromada` — plainly not the
sole-shareholder header `jediný akcionář` under any accent/case folding —
with one natural-person member and no share information anywhere. -/
def akcOrgValna : AkcionariOrgan :=
  ⟨none, some "Valná hromada", [⟨none, some ⟨none, some "Karel", some "Dvořák"⟩, none⟩]⟩

def zAkc : Zaznam := ⟨some true, [⟨some "AS korp", none⟩], [], [akcOrgValna]⟩

def pAkc : VrPayload := ⟨some "00000005", [zAkc], none, none⟩

/-- A person owner carrying an explicit `share_pct` of 50 %. -/
def ownerNovak : Owner := ⟨"PERSON", "Jan Novák", none, some 50, none, "Společníci"⟩

/-- An owner line with no effective value, no parseable share and no
`efektivně` marker. -/
def lnUnknown : NodeLine := ⟨2, "Společníci", "Jan Novák — podíl neznámý", none⟩

/-- Three persons at 10 % voting each. -/
def pv10 : PersonVals := ⟨1/10, 1/10, false, false, false⟩

def fpBlock : List (String × PersonVals) := [("A", pv10), ("B", pv10), ("C", pv10)]

/-- A client state whose cache already holds a row for `00000001`. -/
def stCached : ClientSt :=
  ⟨[("00000001", pRoot, "t0")], fun _ => NetOutcome.ok pRoot, "t1", 4⟩

/-- A client state with an empty cache and a definitive network. -/
def stFresh : ClientSt := ⟨[], fun _ => NetOutcome.ok pRoot, "t1", 4⟩

/-- Root `00000003` owned 50 % by the company `00000002`. -/
def spCompanyB : Spolecnik :=
  ⟨none, some "2020-01-01", some ⟨none, some ⟨some "00000002", some "B sro", none⟩⟩, [podilP50]⟩

def zRootB : Zaznam := ⟨some true, [⟨some "RootB", none⟩], [⟨none, none, [spCompanyB]⟩], []⟩

def pRootB : VrPayload := ⟨some "00000003", [zRootB], none, none⟩

def cvRootB : ClientView :=
  ⟨fun i => if i = "00000003" then pRootB else pErr404, fun _ => "t0"⟩

/-- The owner record the extractor produces from `pRoot`. -/
def ownerN : Owner :=
  ⟨"PERSON", "Jan Novák", none, some 50, some "velikost:50 PROCENTA", "Společníci"⟩

/-- The owner record the extractor produces from `pRootB`. -/
def ownerB : Owner :=
  ⟨"COMPANY", "B sro", some "00000002", some 50, some "velikost:50 PROCENTA", "Společníci"⟩

/-!
## Helper lemmas
-/

theorem clamp01_nonneg (x : ℚ) : 0 ≤ clamp01 x := le_max_left 0 _

theorem clamp01_le_one (x : ℚ) : clamp01 x ≤ 1 :=
  max_le (by norm_num) (min_le_left 1 x)

theorem alistGet_set_eq [DecidableEq κ] (l : List (κ × α)) (k : κ) (v : α) :
    alistGet (alistSet l k v) k = some v := by
  induction l with
  | nil => simp [alistSet, alistGet]
  | cons e rest ih =>
    by_cases h : e.1 = k
    · simp [alistSet, h, alistGet]
    · simpa [alistSet, h, alistGet] using ih

theorem alistGet_set_ne [DecidableEq κ] (l : List (κ × α)) (k k' : κ) (v : α)
    (h : k' ≠ k) : alistGet (alistSet l k v) k' = alistGet l k' := by
  induction l with
  | nil => simp [alistSet, alistGet, List.find?, Ne.symm h]
  | cons e rest ih =>
    by_cases he : e.1 = k
    · subst he
      simp [alistSet, alistGet, List.find?, Ne.symm h, h]
    · by_cases he' : e.1 = k'
      · simp [alistSet, he, alistGet, List.find?, he', h]
      · simpa [alistSet, he, alistGet, List.find?, he'] using ih

theorem blockFold_get (fp : List (String × PersonVals)) (bn : String) (bt tpct : ℚ) :
    ∀ (l : List String) (acc : List (String × PersonVals) × List (String × List String))
      (n : String) (v : PersonVals),
      alistGet fp n = some v → (n ∈ l ∨ alistGet acc.1 n = some v) →
      alistGet (l.foldl (blockPromoteStep fp bn bt tpct) acc).1 n = some v := by
  intro l
  induction l with
  | nil =>
    intro acc n v hv h
    rcases h with h | h
    · exact absurd h (List.not_mem_nil n)
    · simpa using h
  | cons m rest ih =>
    intro acc n v hv h
    rw [List.foldl_cons]
    apply ih _ n v hv
    rcases h with h | h
    · rcases List.mem_cons.mp h with rfl | hm
      · right
        simp only [blockPromoteStep, hv]
        exact alistGet_set_eq _ _ _
      · left; exact hm
    · right
      unfold blockPromoteStep
      cases hfm : alistGet fp m with
      | none => simpa using h
      | some w =>
        by_cases hnm : n = m
        · subst hnm
          rw [hv] at hfm
          cases hfm
          exact alistGet_set_eq _ _ _
        · simpa [alistGet_set_ne _ _ _ _ hnm] using h

theorem akcMemberOwner_share (label : String) (a : ClenOrganu) (o : Owner)
    (h : akcMemberOwner label a = some o) :
    o.share_pct = some 100 ∧ o.share_raw = none := by
  unfold akcMemberOwner at h
  rcases hp : a.pravnickaOsoba with _ | pos
  · rcases hf : a.fyzickaOsoba with _ | fos
    · rw [hp, hf] at h; simp at h
    · rw [hp, hf] at h
      simp only [Option.some.injEq] at h
      rw [← h]
      exact ⟨rfl, rfl⟩
  · rw [hp] at h
    simp only [Option.some.injEq] at h
    rw [← h]
    exact ⟨rfl, rfl⟩

theorem akcFold_share :
    ∀ (orgs : List AkcionariOrgan) (acc : List Owner),
      (∀ o ∈ acc, o.share_pct = some 100 ∧ o.share_raw = none) →
      ∀ o ∈ orgs.foldl akcStep acc, o.share_pct = some 100 ∧ o.share_raw = none := by
  intro orgs
  induction orgs with
  | nil => intro acc hacc o ho; exact hacc o ho
  | cons org rest ih =>
    intro acc hacc o ho
    rw [List.foldl_cons] at ho
    refine ih _ ?_ o ho
    intro o' ho'
    unfold akcStep at ho'
    rcases List.mem_append.mp ho' with h | h
    · exact hacc o' h
    · rcases List.mem_filterMap.mp h with ⟨a, _, ha⟩
      exact akcMemberOwner_share _ a o' ha

theorem akcionariOwners_share (z : Zaznam) :
    ∀ o ∈ akcionariOwners z, o.share_pct = some 100 ∧ o.share_raw = none := by
  intro o ho
  exact akcFold_share _ [] (by intro o' h; simp at h) o ho

/-- The depth guard of `walk`: above `max_depth` the truncation line is
emitted and nothing else. -/
theorem walkF_guard (g : String → VrPayload) (md : Nat)
    (ov : List (String × List (String × ℚ))) (fuel : Nat) (ico : String)
    (depth : Nat) (m : ℚ) (h : depth > md) :
    walkF g md ov fuel ico depth m =
      ([⟨depth, "", "⚠️ Překročena max hloubka", none⟩], []) := by
  rw [walkF.eq_def]
  simp only []
  rw [if_pos h]

/-- One symbolic step of `walk` below the depth guard on a payload without
an error record: the header line, the optional unresolved warning, and the
grouped owner processing. -/
theorem walkF_step (g : String → VrPayload) (md : Nat)
    (ov : List (String × List (String × ℚ))) (fuel : Nat) (ico : String)
    (depth : Nat) (m : ℚ)
    (hd : ¬ depth > md) (he : hasError (g ico) = false) :
    walkF g md ov (fuel + 1) ico depth m =
      (⟨depth, "",
          (extract_current_owners (g ico)).2.1 ++ " (IČO " ++
            (extract_current_owners (g ico)).1 ++ ")",
          if depth = 0 then some (m * 100) else none⟩ ::
        (processGroupsF (fun i d mm => walkF g md ov fuel i d mm)
          (groupByLabel ((extract_current_owners (g ico)).2.2 ++
            (ovLookup ov (extract_current_owners (g ico)).1).map fun e =>
              manualOwner g e.1 e.2)) depth m).1,
       (if ((extract_current_owners (g ico)).2.2 ++
            (ovLookup ov (extract_current_owners (g ico)).1).map fun e =>
              manualOwner g e.1 e.2) = [] then
          [⟨"unresolved", (extract_current_owners (g ico)).1,
            (extract_current_owners (g ico)).2.1,
            "⚠️ Nepodařilo se dohledat vlastníka v OR pro " ++
              (extract_current_owners (g ico)).2.1 ++ " (IČO " ++
              (extract_current_owners (g ico)).1 ++ ")"⟩]
        else []) ++
        (processGroupsF (fun i d mm => walkF g md ov fuel i d mm)
          (groupByLabel ((extract_current_owners (g ico)).2.2 ++
            (ovLookup ov (extract_current_owners (g ico)).1).map fun e =>
              manualOwner g e.1 e.2)) depth m).2) := by
  rw [← Nat.succ_eq_add_one, walkF.eq_def]
  simp only []
  rw [if_neg hd]
  simp only [he, Bool.false_eq_true, if_false]

theorem getVr_cvRoot : getVrPure cvRoot "00000001" = pRoot := by
  with_unfolding_all decide

theorem hasError_pRoot : hasError pRoot = false := by decide

theorem extract_pRoot : extract_current_owners pRoot = ("00000001", "Root", [ownerN]) := by
  with_unfolding_all decide

theorem group_ownerN : groupByLabel [ownerN] = [("Společníci", [ownerN])] := by
  with_unfolding_all decide

theorem company_ownerN : isCompanyOwner ownerN = false := by decide

theorem local_ownerN : localShareOf ownerN = some (1/2) := by with_unfolding_all decide

theorem eff_ownerN : effShareOf ownerN = none := by with_unfolding_all decide

theorem fmt2_half100 : fmt2 ((1/2 : ℚ) * 100) = "50.00" := by with_unfolding_all decide

theorem fmt2_one_half100 : fmt2 (1 * (1/2 : ℚ) * 100) = "50.00" := by
  with_unfolding_all decide

theorem line_ownerN : ownerNodeLine "Společníci" ownerN 0 1 =
    ⟨2, "Společníci", "Jan Novák — 50.00% (efektivně 50.00%)", some 50⟩ := by
  simp only [ownerNodeLine, local_ownerN, eff_ownerN, company_ownerN,
    Bool.false_eq_true, if_false, fmt2_half100, fmt2_one_half100]
  norm_num
  decide

/-- Full evaluation of the resolver on `cvRoot` with `max_depth = 0`. -/
theorem resolve_cvRoot_md0 :
    resolve_tree_online cvRoot "00000001" 0 [] =
      ([⟨0, "", "Root (IČO 00000001)", some 100⟩,
        ⟨1, "Společníci", "Společníci:", none⟩,
        ⟨2, "Společníci", "Jan Novák — 50.00% (efektivně 50.00%)", some 50⟩], []) := by
  show walkF (getVrPure cvRoot) 0 [] (0 + 1) "00000001" 0 1 = _
  rw [walkF_step _ _ _ _ _ _ _ (by omega) (by rw [getVr_cvRoot]; exact hasError_pRoot)]
  rw [getVr_cvRoot, extract_pRoot]
  simp only []
  rw [show ovLookup ([] : List (String × List (String × ℚ))) "00000001" = [] from rfl]
  simp only [List.map_nil, List.append_nil]
  rw [group_ownerN]
  rw [processGroupsF, processOwnersF, line_ownerN, company_ownerN]
  simp only [Bool.false_eq_true, if_false]
  rw [processOwnersF, processGroupsF]
  rw [if_neg (show ¬(([ownerN] : List Owner) = []) from by decide)]
  simp only [if_true, one_mul, List.append_nil, List.nil_append]
  decide

theorem getVr_cvRootB : getVrPure cvRootB "00000003" = pRootB := by
  with_unfolding_all decide

theorem hasError_pRootB : hasError pRootB = false := by decide

theorem extract_pRootB : extract_current_owners pRootB = ("00000003", "RootB", [ownerB]) := by
  with_unfolding_all decide

theorem group_ownerB : groupByLabel [ownerB] = [("Společníci", [ownerB])] := by
  with_unfolding_all decide

theorem company_ownerB : isCompanyOwner ownerB = true := by decide

theorem local_ownerB : localShareOf ownerB = some (1/2) := by with_unfolding_all decide

theorem eff_ownerB : effShareOf ownerB = none := by with_unfolding_all decide

theorem line_ownerB : ownerNodeLine "Společníci" ownerB 0 1 =
    ⟨2, "Společníci", "B sro — 50.00% (IČO 00000002)", some 50⟩ := by
  simp only [ownerNodeLine, local_ownerB, eff_ownerB, company_ownerB, if_true, fmt2_half100]
  norm_num
  decide

/-- Full evaluation of the resolver on `cvRootB` with `max_depth = 0`: the
company-owner child is replaced by the truncation line. -/
theorem resolve_cvRootB_md0 :
    resolve_tree_online cvRootB "00000003" 0 [] =
      ([⟨0, "", "RootB (IČO 00000003)", some 100⟩,
        ⟨1, "Společníci", "Společníci:", none⟩,
        ⟨2, "Společníci", "B sro — 50.00% (IČO 00000002)", some 50⟩,
        ⟨3, "", "⚠️ Překročena max hloubka", none⟩], []) := by
  show walkF (getVrPure cvRootB) 0 [] (0 + 1) "00000003" 0 1 = _
  rw [walkF_step _ _ _ _ _ _ _ (by omega) (by rw [getVr_cvRootB]; exact hasError_pRootB)]
  rw [getVr_cvRootB, extract_pRootB]
  simp only []
  rw [show ovLookup ([] : List (String × List (String × ℚ))) "00000003" = [] from rfl]
  simp only [List.map_nil, List.append_nil]
  rw [group_ownerB]
  rw [processGroupsF, processOwnersF, line_ownerB, company_ownerB]
  simp only [if_true]
  rw [walkF_guard _ _ _ _ _ _ _ (by omega)]
  rw [processOwnersF, processGroupsF]
  rw [if_neg (show ¬(([ownerB] : List Owner) = []) from by decide)]
  simp only [if_true, one_mul, List.append_nil, List.nil_append]
  decide

/-!
## Claim theorems
-/

/-- C3, counterexample: on `"velikost:2;25 PROCENTA"` the share-text parser
returns 2/25 = 0.08 — the general-fraction layer reads `2;25` as the
fraction 2/25 — and not 0.0225 = 9/400 as the claim states. -/
theorem C3_counterexample :
    parse_pct_from_text "velikost:2;25 PROCENTA" = some (2 / 25) ∧
      parse_pct_from_text "velikost:2;25 PROCENTA" ≠ some (9 / 400) := by
  constructor
  · with_unfolding_all decide
  · with_unfolding_all decide

/-- C3, amended: the string has no `obchodni_podil` or `hlasovaci_prava`
field, so the general-fraction layer (layer 3) fires before the percent
layer: `2;25` is read as the fraction 2/25 and the parser returns 0.08. -/
theorem C3_amended :
    parse_pct_from_text "velikost:2;25 PROCENTA" = some (2 / 25) := by
  with_unfolding_all decide

/-- C4, counterexample: a 6-digit input passes through `norm_ico` unchanged
(length 6, not 8), and a 9-digit input passes through `_normalize_ico`
unchanged (length 9, not 8) — normalization to exactly 8 digits does not
hold for every accepted input. -/
theorem C4_counterexample :
    norm_ico "123456" = "123456" ∧ (norm_ico "123456").toList.length ≠ 8 ∧
      normalize_ico (some "123456789") = some "123456789" ∧
      ("123456789" : String).toList.length ≠ 8 := by
  refine ⟨by decide, by decide, by decide, by decide⟩

/-- `(String.mk l).toList` is `l`. -/
theorem toList_mk (l : List Char) : (String.mk l).toList = l := rfl


/-- C4, amended: when the input's digit string has 7 or 8 digits — the only
well-formed registry inputs — both normalizers return exactly 8 digits
(7-digit values are left-padded with one zero); `norm_ico` returns any other
digit string unchanged and `_normalize_ico` zero-fills to a minimum of 8. -/
theorem C4_amended (s : String)
    (h : (s.toList.filter isDig).length = 7 ∨ (s.toList.filter isDig).length = 8) :
    (norm_ico s).toList.length = 8 ∧ (∀ c ∈ (norm_ico s).toList, isDig c = true) ∧
      (s ≠ "" → ∃ t, normalize_ico (some s) = some t ∧
        t.toList.length = 8 ∧ ∀ c ∈ t.toList, isDig c = true) := by
  have hdig : ∀ c ∈ s.toList.filter isDig, isDig c = true := by
    intro c hc
    exact List.of_mem_filter hc
  have hnorm : norm_ico s =
      if (s.toList.filter isDig).length = 7 then String.mk ('0' :: s.toList.filter isDig)
      else String.mk (s.toList.filter isDig) := rfl
  refine ⟨?_, ?_, ?_⟩
  · rw [hnorm]
    rcases h with h7 | h8
    · rw [if_pos h7, toList_mk, List.length_cons]
      omega
    · rw [if_neg (by omega), toList_mk, h8]
  · rw [hnorm]
    intro c hc
    rcases h with h7 | h8
    · rw [if_pos h7, toList_mk] at hc
      rcases List.mem_cons.mp hc with rfl | hc'
      · decide
      · exact hdig c hc'
    · rw [if_neg (by omega), toList_mk] at hc
      exact hdig c hc
  · intro hs
    have hne : s.toList.filter isDig ≠ [] := by
      intro hnil
      rw [hnil] at h
      simp at h
    have hstep : normalize_ico (some s) =
        if s = "" then none
        else if s.toList.filter isDig = [] then none
        else some (String.mk (zfillChars 8 (s.toList.filter isDig))) := rfl
    have hnz : normalize_ico (some s) =
        some (String.mk (zfillChars 8 (s.toList.filter isDig))) := by
      rw [hstep, if_neg hs, if_neg hne]
    refine ⟨String.mk (zfillChars 8 (s.toList.filter isDig)), hnz, ?_, ?_⟩
    · rw [toList_mk]
      unfold zfillChars
      rw [List.length_append, List.length_replicate]
      rcases h with h7 | h8 <;> omega
    · intro c hc
      rw [toList_mk] at hc
      unfold zfillChars at hc
      rcases List.mem_append.mp hc with hc' | hc'
      · rw [List.eq_of_mem_replicate hc']
        decide
      · exact hdig c hc'

/-- C4, amended, witness at a 7-digit input. -/
theorem C4_amended_witness :
    (norm_ico "1234567").toList.length = 8 ∧
      (∀ c ∈ (norm_ico "1234567").toList, isDig c = true) ∧
      ("1234567" ≠ "" → ∃ t, normalize_ico (some ("1234567" : String)) = some t ∧
        t.toList.length = 8 ∧ ∀ c ∈ t.toList, isDig c = true) :=
  C4_amended "1234567" (by decide)

/-- C1, counterexample: the extractor assigns a 100 % share to the member of
a shareholder section whose header `Valná hromada` does not match
`jediný akcionář` under any accent or case folding and which carries no
share information at all — refuting the claim that 100 % is assigned only
under a matching sole-shareholder header. -/
theorem C1_counterexample :
    extract_current_owners pAkc =
      ("00000005", "AS korp",
        [⟨"PERSON", "Karel Dvořák", none, some 100, none, "Valná hromada"⟩]) ∧
      orDefault akcOrgValna.nazevOrganu "Akcionáři" ≠ "jediný akcionář" := by
  refine ⟨by with_unfolding_all decide, by decide⟩

/-- C1, amended: every active member of every active shareholder section is
assigned `share_pct = 100` with `share_raw = None` unconditionally — the
extractor never tests the section header (it only reuses it as the label)
and never reads a share field of a shareholder member; the output owner list
is the member-block owners followed by these shareholder owners. -/
theorem C1_amended (p : VrPayload) (z : Zaznam)
    (h : pick_primary_or_record p.zaznamy = some z) :
    (extract_current_owners p).2.2 =
      ownersOfLatest (latestOfZaznam z) ++ akcionariOwners z ∧
      ∀ o ∈ akcionariOwners z, o.share_pct = some 100 ∧ o.share_raw = none := by
  constructor
  · simp only [extract_current_owners, h]
  · exact akcionariOwners_share z

/-- C1, amended, witness on the `Valná hromada` payload. -/
theorem C1_amended_witness :
    (extract_current_owners pAkc).2.2 =
      ownersOfLatest (latestOfZaznam zAkc) ++ akcionariOwners zAkc ∧
      ∀ o ∈ akcionariOwners zAkc, o.share_pct = some 100 ∧ o.share_raw = none :=
  C1_amended pAkc zAkc (by with_unfolding_all decide)

/-- C2: for any owner whose local share is parseable (`localShareOf o =
some s`) and any parent multiplier `m`, the owner line the walker emits
carries `effective_pct = 100·m·s` exactly (the model's arithmetic is exact,
so the claim's 1e-9 tolerance is subsumed); the recursive multiplier the
walker passes on is `m·s`, which makes `effective_pct` 100 times the product
of the local shares along the path from the root; and the walker emits
exactly this line for the owner. -/
theorem C2_owner_line_effective (g : String → VrPayload) (md : Nat)
    (ov : List (String × List (String × ℚ))) (fuel : Nat)
    (label : String) (o : Owner) (rest : List Owner) (depth : Nat) (m s : ℚ)
    (h : localShareOf o = some s) :
    (ownerNodeLine label o depth m).effective_pct = some (100 * m * s) ∧
      nextMult o m = m * s ∧
      (processOwnersF (fun i d mm => walkF g md ov fuel i d mm) label
          (o :: rest) depth m).1 =
        ownerNodeLine label o depth m ::
          ((if isCompanyOwner o then
              (walkF g md ov fuel (o.ico.getD "") (depth + 3) (nextMult o m)).1
            else []) ++
            (processOwnersF (fun i d mm => walkF g md ov fuel i d mm) label
              rest depth m).1) := by
  refine ⟨?_, ?_, ?_⟩
  · simp only [ownerNodeLine, h]
    by_cases hc : isCompanyOwner o = true <;> simp [hc] <;> ring_nf
  · simp only [nextMult, h]
  · rw [processOwnersF]
    by_cases hc : isCompanyOwner o = true <;> simp [hc]

/-- C2, witness: a person owner with `share_pct = 50` under parent
multiplier 1/2 gets `effective_pct = 100·(1/2)·(1/2) = 25`. -/
theorem C2_witness :
    (ownerNodeLine "Společníci" ownerNovak 0 (1/2)).effective_pct =
        some (100 * (1/2) * (1/2)) ∧
      nextMult ownerNovak (1/2) = (1/2) * (1/2) ∧
      (processOwnersF (fun i d mm => walkF (fun _ => pErr404) 25 [] 26 i d mm)
          "Společníci" [ownerNovak] 0 (1/2)).1 =
        ownerNodeLine "Společníci" ownerNovak 0 (1/2) ::
          ((if isCompanyOwner ownerNovak then
              (walkF (fun _ => pErr404) 25 [] 26 (ownerNovak.ico.getD "") 3
                (nextMult ownerNovak (1/2))).1
            else []) ++
            (processOwnersF (fun i d mm => walkF (fun _ => pErr404) 25 [] 26 i d mm)
              "Společníci" [] 0 (1/2)).1) :=
  C2_owner_line_effective (fun _ => pErr404) 25 [] 26 "Společníci" ownerNovak [] 0
    (1/2) (1/2) (by with_unfolding_all decide)

/-- C5, counterexample: with `max_depth = 0` and a root that has one person
owner, the trace has three lines — the header, the label line and the owner
line — not a single header line: the depth guard cuts only the recursion
into child companies, not the root's own owner block. -/
theorem C5_counterexample :
    (resolve_tree_online cvRoot "00000001" 0 []).1 =
      [⟨0, "", "Root (IČO 00000001)", some 100⟩,
       ⟨1, "Společníci", "Společníci:", none⟩,
       ⟨2, "Společníci", "Jan Novák — 50.00% (efektivně 50.00%)", some 50⟩] ∧
      (resolve_tree_online cvRoot "00000001" 0 []).1.length ≠ 1 := by
  rw [resolve_cvRoot_md0]
  exact ⟨rfl, by decide⟩

/-- C5, amended: the depth guard fires exactly when `current_depth >
max_depth`, emitting the truncation line `(depth, "", "max depth exceeded",
null)` and returning; with `max_depth = 0` the root node itself is still
fully processed — its label and owner lines are emitted — and only each
company-owner child (at depth 3 > 0) is replaced by a truncation line. -/
theorem C5_amended :
    (∀ (g : String → VrPayload) (md : Nat) (ov : List (String × List (String × ℚ)))
        (fuel : Nat) (ico : String) (depth : Nat) (m : ℚ), depth > md →
        walkF g md ov fuel ico depth m =
          ([⟨depth, "", "⚠️ Překročena max hloubka", none⟩], [])) ∧
      (resolve_tree_online cvRoot "00000001" 0 []).1 =
        [⟨0, "", "Root (IČO 00000001)", some 100⟩,
         ⟨1, "Společníci", "Společníci:", none⟩,
         ⟨2, "Společníci", "Jan Novák — 50.00% (efektivně 50.00%)", some 50⟩] ∧
      (resolve_tree_online cvRootB "00000003" 0 []).1 =
        [⟨0, "", "RootB (IČO 00000003)", some 100⟩,
         ⟨1, "Společníci", "Společníci:", none⟩,
         ⟨2, "Společníci", "B sro — 50.00% (IČO 00000002)", some 50⟩,
         ⟨3, "", "⚠️ Překročena max hloubka", none⟩] := by
  refine ⟨?_, by rw [resolve_cvRoot_md0], by rw [resolve_cvRootB_md0]⟩
  intro g md ov fuel ico depth m h
  exact walkF_guard g md ov fuel ico depth m h

/-- C5, amended, witness: the guard fires at depth 3 with `max_depth = 0`. -/
theorem C5_amended_witness :
    walkF (fun _ => pErr404) 0 [] 1 "x" 3 1 =
      ([⟨3, "", "⚠️ Překročena max hloubka", none⟩], []) :=
  C5_amended.1 (fun _ => pErr404) 0 [] 1 "x" 3 1 (by omega)

/-- C8: below the depth guard, on a non-error payload, the walk emits the
header line and then processes the owner groups; when the merged owner list
(registry owners plus manual overrides) is empty, exactly one structured
warning `{kind := "unresolved", ico, name, text}` is prepended and — since
the group processing of an empty list yields nothing — no further trace line
or warning follows the header; when the merged list is nonempty, the
prepended warning list is empty, so no unresolved warning is produced for
this node. -/
theorem C8_unresolved_warning (g : String → VrPayload) (md : Nat)
    (ov : List (String × List (String × ℚ))) (fuel : Nat) (ico : String)
    (depth : Nat) (m : ℚ)
    (hd : ¬ depth > md) (he : hasError (g ico) = false) :
    walkF g md ov (fuel + 1) ico depth m =
      (⟨depth, "",
          (extract_current_owners (g ico)).2.1 ++ " (IČO " ++
            (extract_current_owners (g ico)).1 ++ ")",
          if depth = 0 then some (m * 100) else none⟩ ::
        (processGroupsF (fun i d mm => walkF g md ov fuel i d mm)
          (groupByLabel ((extract_current_owners (g ico)).2.2 ++
            (ovLookup ov (extract_current_owners (g ico)).1).map fun e =>
              manualOwner g e.1 e.2)) depth m).1,
       (if ((extract_current_owners (g ico)).2.2 ++
            (ovLookup ov (extract_current_owners (g ico)).1).map fun e =>
              manualOwner g e.1 e.2) = [] then
          [⟨"unresolved", (extract_current_owners (g ico)).1,
            (extract_current_owners (g ico)).2.1,
            "⚠️ Nepodařilo se dohledat vlastníka v OR pro " ++
              (extract_current_owners (g ico)).2.1 ++ " (IČO " ++
              (extract_current_owners (g ico)).1 ++ ")"⟩]
        else []) ++
        (processGroupsF (fun i d mm => walkF g md ov fuel i d mm)
          (groupByLabel ((extract_current_owners (g ico)).2.2 ++
            (ovLookup ov (extract_current_owners (g ico)).1).map fun e =>
              manualOwner g e.1 e.2)) depth m).2) ∧
      (((extract_current_owners (g ico)).2.2 ++
          (ovLookup ov (extract_current_owners (g ico)).1).map fun e =>
            manualOwner g e.1 e.2) = [] →
        processGroupsF (fun i d mm => walkF g md ov fuel i d mm)
          (groupByLabel ((extract_current_owners (g ico)).2.2 ++
            (ovLookup ov (extract_current_owners (g ico)).1).map fun e =>
              manualOwner g e.1 e.2)) depth m = ([], [])) := by
  refine ⟨walkF_step g md ov fuel ico depth m hd he, ?_⟩
  intro h
  rw [h]
  rfl

/-- C8, witness: a company without owners yields exactly the header and one
unresolved warning. -/
theorem C8_witness :
    walkF (fun _ => pEmpty) 25 [] (25 + 1) "00000007" 0 1 =
      (⟨0, "",
          (extract_current_owners pEmpty).2.1 ++ " (IČO " ++
            (extract_current_owners pEmpty).1 ++ ")",
          if (0 : Nat) = 0 then some ((1 : ℚ) * 100) else none⟩ ::
        (processGroupsF (fun i d mm => walkF (fun _ => pEmpty) 25 [] 25 i d mm)
          (groupByLabel ((extract_current_owners pEmpty).2.2 ++
            (ovLookup [] (extract_current_owners pEmpty).1).map fun e =>
              manualOwner (fun _ => pEmpty) e.1 e.2)) 0 1).1,
       (if ((extract_current_owners pEmpty).2.2 ++
            (ovLookup [] (extract_current_owners pEmpty).1).map fun e =>
              manualOwner (fun _ => pEmpty) e.1 e.2) = [] then
          [⟨"unresolved", (extract_current_owners pEmpty).1,
            (extract_current_owners pEmpty).2.1,
            "⚠️ Nepodařilo se dohledat vlastníka v OR pro " ++
              (extract_current_owners pEmpty).2.1 ++ " (IČO " ++
              (extract_current_owners pEmpty).1 ++ ")"⟩]
        else []) ++
        (processGroupsF (fun i d mm => walkF (fun _ => pEmpty) 25 [] 25 i d mm)
          (groupByLabel ((extract_current_owners pEmpty).2.2 ++
            (ovLookup [] (extract_current_owners pEmpty).1).map fun e =>
              manualOwner (fun _ => pEmpty) e.1 e.2)) 0 1).2) ∧
      (((extract_current_owners pEmpty).2.2 ++
          (ovLookup [] (extract_current_owners pEmpty).1).map fun e =>
            manualOwner (fun _ => pEmpty) e.1 e.2) = [] →
        processGroupsF (fun i d mm => walkF (fun _ => pEmpty) 25 [] 25 i d mm)
          (groupByLabel ((extract_current_owners pEmpty).2.2 ++
            (ovLookup [] (extract_current_owners pEmpty).1).map fun e =>
              manualOwner (fun _ => pEmpty) e.1 e.2)) 0 1 = ([], [])) :=
  C8_unresolved_warning (fun _ => pEmpty) 25 [] 25 "00000007" 0 1 (by omega) (by decide)

/-- C9: the resolver is a pure function of the cached payload map, the root,
the depth bound and the manual overrides; two client states that agree on
the payload column — even with different fetch timestamps — produce
line-for-line identical traces and identical warning lists (warnings are
part of the same fold, hence in walk order). -/
theorem C9_trace_determinism (c1 c2 : ClientView) (h : c1.payloads = c2.payloads)
    (root : String) (md : Nat) (ov : List (String × List (String × ℚ))) :
    resolve_tree_online c1 root md ov = resolve_tree_online c2 root md ov := by
  unfold resolve_tree_online
  have hg : getVrPure c1 = getVrPure c2 := by
    funext i
    unfold getVrPure
    rw [h]
  rw [hg]

/-- C9, witness: the same payloads under different timestamp columns. -/
theorem C9_witness :
    resolve_tree_online cvRoot "00000001" 25 [] =
      resolve_tree_online cvRootLater "00000001" 25 [] :=
  C9_trace_determinism cvRoot cvRootLater rfl "00000001" 25 []

/-- C6: the voting-block criterion promotes exactly when the member list is
nonempty and its summed voting strictly exceeds the threshold.  When the sum
is equal to the threshold (or below, or the list is empty) the evaluation
result is exactly the individual-criteria result — no member is promoted and
no block reason exists; when it strictly exceeds, every block member present
in the final person set ends up in the UBO set (with its values). -/
theorem C6_voting_block (fp : List (String × PersonVals)) (bm : List String)
    (bn : String) (tpct : ℚ) :
    (¬(bm ≠ [] ∧ blockTotal fp bm > tpct / 100) →
        evaluate_ubo fp bm bn tpct = evalIndividual fp tpct) ∧
      ((bm ≠ [] ∧ blockTotal fp bm > tpct / 100) →
        ∀ n ∈ bm, ∀ v, alistGet fp n = some v →
          alistGet (evaluate_ubo fp bm bn tpct).1 n = some v) := by
  constructor
  · intro h
    unfold evaluate_ubo votingBlockStep
    simp only []
    rw [if_neg h]
  · intro h n hn v hv
    unfold evaluate_ubo votingBlockStep
    simp only []
    rw [if_pos h]
    exact blockFold_get fp bn (blockTotal fp bm) tpct bm _ n v hv (Or.inl hn)

/-- C6, witness: three persons at 10 % voting each; at threshold 25 % the
block (sum 30 %) promotes member "C"; at threshold 30 % (sum equal) the
result is exactly the individual evaluation. -/
theorem C6_witness :
    alistGet (evaluate_ubo fpBlock ["A", "B", "C"] "Blok 1" 25).1 "C" = some pv10 ∧
      evaluate_ubo fpBlock ["A", "B", "C"] "Blok 1" 30 = evalIndividual fpBlock 30 :=
  ⟨(C6_voting_block fpBlock ["A", "B", "C"] "Blok 1" 25).2
      (by with_unfolding_all decide) "C" (by decide) pv10 (by with_unfolding_all decide),
    (C6_voting_block fpBlock ["A", "B", "C"] "Blok 1" 30).1
      (by with_unfolding_all decide)⟩

theorem cacheGet_map_set (rows : List (String × VrPayload × String)) (k : String)
    (p : VrPayload) (now : String) (h : rows.any (fun r => r.1 = k) = true) :
    cacheGet (rows.map fun r => if r.1 = k then (k, p, now) else r) k = some p := by
  induction rows with
  | nil => simp at h
  | cons r rows ih =>
    by_cases hr : r.1 = k
    · simp [cacheGet, List.find?, hr]
    · have h' : rows.any (fun r => r.1 = k) = true := by simpa [hr] using h
      simpa [cacheGet, List.find?, hr] using ih h'

theorem cacheGet_append_new (rows : List (String × VrPayload × String)) (k : String)
    (p : VrPayload) (now : String) (h : rows.any (fun r => r.1 = k) = false) :
    cacheGet (rows ++ [(k, p, now)]) k = some p := by
  induction rows with
  | nil => simp [cacheGet, List.find?]
  | cons r rows ih =>
    simp only [List.any_cons, Bool.or_eq_false_iff] at h
    have hr : ¬ r.1 = k := by simpa using h.1
    simpa [cacheGet, List.find?, hr] using ih h.2

/-- After `_cache_put`, the row for the key holds the written payload. -/
theorem cacheGet_cachePut (st : ClientSt) (k : String) (p : VrPayload) :
    cacheGet (cachePut st k p).cache k = some p := by
  unfold cachePut
  by_cases h : st.cache.any (fun r => r.1 = k) = true
  · simp only [h, if_true]
    exact cacheGet_map_set _ _ _ _ h
  · have h' : st.cache.any (fun r => r.1 = k) = false := Bool.eq_false_iff.mpr h
    simp only [h', Bool.false_eq_true, if_false]
    exact cacheGet_append_new _ _ _ _ h'

/-- `get_vr` on a cache hit without `force_refresh`: the cached payload,
unchanged state, zero attempts. -/
theorem get_vr_hit (st : ClientSt) (ico : String) (p : VrPayload)
    (hhit : cacheGet st.cache (norm_ico ico) = some p) :
    get_vr st ico false = (Except.ok p, st, 0) := by
  unfold get_vr
  simp only [Bool.false_eq_true, if_false, hhit]

/-- `get_vr` on a cache miss without `force_refresh`: one fetch according to
the network outcome. -/
theorem get_vr_miss (st : ClientSt) (ico : String)
    (hmiss : cacheGet st.cache (norm_ico ico) = none) :
    get_vr st ico false =
      match st.net (norm_ico ico) with
      | NetOutcome.ok p => (Except.ok p, cachePut st (norm_ico ico) p, 1)
      | NetOutcome.deferr code =>
        (Except.ok (errPayload code (ARES_VR_URL (norm_ico ico))),
          cachePut st (norm_ico ico) (errPayload code (ARES_VR_URL (norm_ico ico))), 1)
      | NetOutcome.down =>
        (Except.error "ARES request failed after retries", st, st.max_retries + 1) := by
  unfold get_vr
  simp only [Bool.false_eq_true, if_false, hmiss]

/-- `get_vr` with `force_refresh = true` skips the cache read. -/
theorem get_vr_force (st : ClientSt) (ico : String) :
    get_vr st ico true =
      match st.net (norm_ico ico) with
      | NetOutcome.ok p => (Except.ok p, cachePut st (norm_ico ico) p, 1)
      | NetOutcome.deferr code =>
        (Except.ok (errPayload code (ARES_VR_URL (norm_ico ico))),
          cachePut st (norm_ico ico) (errPayload code (ARES_VR_URL (norm_ico ico))), 1)
      | NetOutcome.down =>
        (Except.error "ARES request failed after retries", st, st.max_retries + 1) := by
  unfold get_vr
  simp only [if_true]

/-- C7, counterexample: when the ID is already cached, two successive
`get_vr` calls with `force_refresh = false` issue zero HTTP attempts in
total — not exactly one network request as claimed. -/
theorem C7_counterexample :
    (get_vr stCached "00000001" false).2.2 +
        (get_vr (get_vr stCached "00000001" false).2.1 "00000001" false).2.2 = 0 ∧
      (0 : Nat) ≠ 1 := by
  have h1 : get_vr stCached "00000001" false = (Except.ok pRoot, stCached, 0) :=
    get_vr_hit stCached "00000001" pRoot (by with_unfolding_all decide)
  rw [h1]
  rw [get_vr_hit stCached "00000001" pRoot (by with_unfolding_all decide)]
  exact ⟨rfl, by decide⟩

/-- C7, amended: starting from a cache without the ID and a definitive
network outcome (200 or 400/404), the first call issues exactly one HTTP
attempt and caches the fetched payload (error records included), and the
second call issues zero attempts and returns the cached payload verbatim
with the state unchanged; a call with `force_refresh = true` always issues
at least one HTTP attempt, and when the outcome is definitive it updates the
cached row for the ID. -/
theorem C7_amended (st : ClientSt) (ico : String)
    (hmiss : cacheGet st.cache (norm_ico ico) = none)
    (hdef : st.net (norm_ico ico) ≠ NetOutcome.down) :
    (∃ p, netPayload st (norm_ico ico) = some p ∧
      get_vr st ico false = (Except.ok p, cachePut st (norm_ico ico) p, 1) ∧
      cacheGet ((get_vr st ico false).2.1).cache (norm_ico ico) = some p ∧
      get_vr ((get_vr st ico false).2.1) ico false =
        (Except.ok p, (get_vr st ico false).2.1, 0)) ∧
    (∀ (st2 : ClientSt) (ico2 : String), 1 ≤ (get_vr st2 ico2 true).2.2) ∧
    (∀ (st2 : ClientSt) (ico2 : String), st2.net (norm_ico ico2) ≠ NetOutcome.down →
      ∃ q, netPayload st2 (norm_ico ico2) = some q ∧
        cacheGet ((get_vr st2 ico2 true).2.1).cache (norm_ico ico2) = some q) := by
  refine ⟨?_, ?_, ?_⟩
  · cases hnet : st.net (norm_ico ico) with
    | ok p =>
      refine ⟨p, by simp [netPayload, hnet], ?_⟩
      have h1 : get_vr st ico false = (Except.ok p, cachePut st (norm_ico ico) p, 1) := by
        rw [get_vr_miss st ico hmiss, hnet]
      refine ⟨h1, ?_, ?_⟩
      · rw [h1]
        exact cacheGet_cachePut st _ p
      · rw [h1]
        exact get_vr_hit _ ico p (cacheGet_cachePut st _ p)
    | deferr code =>
      refine ⟨errPayload code (ARES_VR_URL (norm_ico ico)), by simp [netPayload, hnet], ?_⟩
      have h1 : get_vr st ico false =
          (Except.ok (errPayload code (ARES_VR_URL (norm_ico ico))),
            cachePut st (norm_ico ico) (errPayload code (ARES_VR_URL (norm_ico ico))), 1) := by
        rw [get_vr_miss st ico hmiss, hnet]
      refine ⟨h1, ?_, ?_⟩
      · rw [h1]
        exact cacheGet_cachePut st _ _
      · rw [h1]
        exact get_vr_hit _ ico _ (cacheGet_cachePut st _ _)
    | down => exact absurd hnet hdef
  · intro st2 ico2
    rw [get_vr_force st2 ico2]
    cases hnet : st2.net (norm_ico ico2) <;> simp
  · intro st2 ico2 hdef2
    rw [get_vr_force st2 ico2]
    cases hnet : st2.net (norm_ico ico2) with
    | ok p => exact ⟨p, by simp [netPayload, hnet], cacheGet_cachePut st2 _ p⟩
    | deferr code =>
      exact ⟨errPayload code (ARES_VR_URL (norm_ico ico2)), by simp [netPayload, hnet],
        cacheGet_cachePut st2 _ _⟩
    | down => exact absurd hnet hdef2

/-- C7, amended, witness: fresh cache, network answering 200. -/
theorem C7_amended_witness :
    (∃ p, netPayload stFresh (norm_ico "00000001") = some p ∧
      get_vr stFresh "00000001" false = (Except.ok p, cachePut stFresh (norm_ico "00000001") p, 1) ∧
      cacheGet ((get_vr stFresh "00000001" false).2.1).cache (norm_ico "00000001") = some p ∧
      get_vr ((get_vr stFresh "00000001" false).2.1) "00000001" false =
        (Except.ok p, (get_vr stFresh "00000001" false).2.1, 0)) ∧
    (∀ (st2 : ClientSt) (ico2 : String), 1 ≤ (get_vr st2 ico2 true).2.2) ∧
    (∀ (st2 : ClientSt) (ico2 : String), st2.net (norm_ico ico2) ≠ NetOutcome.down →
      ∃ q, netPayload st2 (norm_ico ico2) = some q ∧
        cacheGet ((get_vr st2 ico2 true).2.1).cache (norm_ico ico2) = some q) :=
  C7_amended stFresh "00000001" (by with_unfolding_all decide) (by decide)

/-- C10: a person-classified trace line (nonempty text, not a company
header, not a label line, no registry ID in the text) with no
`effective_pct`, no parseable share and no `efektivně` marker still creates
or updates the aggregate entry under the person's name: the ownership and
voting sums are left exactly unchanged, a path record with a null effective
value is appended (plus a debug record with source "unknown"), the header
stack is popped to the expected parent and the pending multiplier is left
alone; and after processing any line list, every person's ownership and
voting sums are clamped to [0,1]. -/
theorem C10_person_no_share (st : CepState) (ln : NodeLine)
    (ht : ln.text ≠ "")
    (hh : matchCompanyHeader ln.text = false)
    (hl : ln.text.endsWith ":" = false)
    (hc : searchFirst matchIcoInLine ln.text.toList = none)
    (he : ln.effective_pct = none)
    (hp : parse_pct_from_text ln.text = none)
    (hm : searchFirst matchEfektivne ln.text.toList = none) :
    cepStep st ln =
      ⟨alistSet st.persons (stripStr (String.mk (dashSplitFirst ln.text.toList)))
          ⟨((alistGet st.persons (stripStr (String.mk (dashSplitFirst ln.text.toList)))).getD
              ⟨0, 0, [], []⟩).ownership,
            ((alistGet st.persons (stripStr (String.mk (dashSplitFirst ln.text.toList)))).getD
              ⟨0, 0, [], []⟩).voting,
            ((alistGet st.persons (stripStr (String.mk (dashSplitFirst ln.text.toList)))).getD
              ⟨0, 0, [], []⟩).paths ++
              [((((popWhile (fun e => e.1 > ln.depth - 2) st.header_stack).getLast?).map
                  fun e => e.1).getD 0, none, ln.text)],
            ((alistGet st.persons (stripStr (String.mk (dashSplitFirst ln.text.toList)))).getD
              ⟨0, 0, [], []⟩).debug_paths ++
              [⟨(((popWhile (fun e => e.1 > ln.depth - 2) st.header_stack).getLast?).map
                  fun e => e.1).getD 0,
                (((popWhile (fun e => e.1 > ln.depth - 2) st.header_stack).getLast?).map
                  fun e => e.2).getD 1,
                none, none, "unknown", ln.text⟩]⟩,
        popWhile (fun e => e.1 > ln.depth - 2) st.header_stack,
        st.pending⟩ ∧
      (∀ lines : List NodeLine, ∀ e ∈ compute_effective_persons lines,
        0 ≤ e.2.ownership ∧ e.2.ownership ≤ 1 ∧ 0 ≤ e.2.voting ∧ e.2.voting ≤ 1) := by
  constructor
  · simp only [cepStep, if_neg ht, hh, Bool.false_eq_true, if_false, hl, hc, he, hp, hm,
      Option.isSome_none, Option.map_none', Option.getD_none]
  · intro lines e he'
    unfold compute_effective_persons at he'
    rcases List.mem_map.mp he' with ⟨x, _, hx⟩
    rw [← hx]
    exact ⟨clamp01_nonneg _, clamp01_le_one _, clamp01_nonneg _, clamp01_le_one _⟩

/-- C10, witness at the owner line `"Jan Novák — podíl neznámý"` on the
empty state. -/
theorem C10_witness :
    cepStep ⟨[], [], none⟩ lnUnknown =
      ⟨alistSet ([] : List (String × PersonEntry))
          (stripStr (String.mk (dashSplitFirst lnUnknown.text.toList)))
          ⟨((alistGet ([] : List (String × PersonEntry))
              (stripStr (String.mk (dashSplitFirst lnUnknown.text.toList)))).getD
              ⟨0, 0, [], []⟩).ownership,
            ((alistGet ([] : List (String × PersonEntry))
              (stripStr (String.mk (dashSplitFirst lnUnknown.text.toList)))).getD
              ⟨0, 0, [], []⟩).voting,
            ((alistGet ([] : List (String × PersonEntry))
              (stripStr (String.mk (dashSplitFirst lnUnknown.text.toList)))).getD
              ⟨0, 0, [], []⟩).paths ++
              [((((popWhile (fun e => e.1 > lnUnknown.depth - 2) ([] : List (Nat × ℚ))).getLast?).map
                  fun e => e.1).getD 0, none, lnUnknown.text)],
            ((alistGet ([] : List (String × PersonEntry))
              (stripStr (String.mk (dashSplitFirst lnUnknown.text.toList)))).getD
              ⟨0, 0, [], []⟩).debug_paths ++
              [⟨(((popWhile (fun e => e.1 > lnUnknown.depth - 2) ([] : List (Nat × ℚ))).getLast?).map
                  fun e => e.1).getD 0,
                (((popWhile (fun e => e.1 > lnUnknown.depth - 2) ([] : List (Nat × ℚ))).getLast?).map
                  fun e => e.2).getD 1,
                none, none, "unknown", lnUnknown.text⟩]⟩,
        popWhile (fun e => e.1 > lnUnknown.depth - 2) ([] : List (Nat × ℚ)),
        none⟩ ∧
      (∀ lines : List NodeLine, ∀ e ∈ compute_effective_persons lines,
        0 ≤ e.2.ownership ∧ e.2.ownership ≤ 1 ∧ 0 ≤ e.2.voting ∧ e.2.voting ≤ 1) :=
  C10_person_no_share ⟨[], [], none⟩ lnUnknown (by decide) (by decide) (by decide)
    (by with_unfolding_all decide) (by decide) (by with_unfolding_all decide)
    (by with_unfolding_all decide)
